import Mathlib

/-!
Verification of the `vm` repository: a small register-based virtual machine
with a lexer, a single-pass compiler with label back-patching, and a
byte-code interpreter (`cpu/cpu.go`, `cpu/register.go`, `cpu/stack.go`,
`cpu/traps.go`, the compiler and the lexer packages).

The Go sources are embedded shallowly:

* Go array accesses `c.mem[i]` on the 0xFFFF-byte RAM are modelled by a
  checked read/write that yields `Outcome.fault` when the index is out of
  bounds, mirroring the runtime panic a Go program would raise there.
* Functions returning `error` are modelled with `Outcome.err`.
* The interpreter's decode-dispatch `switch` is one `step` function built
  from one definition per opcode case, each following its Go case block
  statement by statement (including the instruction-pointer increments).
* External effects (random source, standard input, subprocess execution)
  are supplied by a `World` record so that `step` stays a function.
-/

namespace VM

/-- Size of RAM: `maxMemSize = 0xffff` in `cpu.go`.  The memory array has
exactly this many bytes, so valid indices are `0 .. 0xfffe`. -/
def maxMemSize : Nat := 0xffff

/-- Errors returned by the interpreter (`fmt.Errorf` sites in `cpu.go`,
`register.go`, `stack.go`, `traps.go`). -/
inductive VMErr where
  /-- "register [r] is out of range" -/
  | regOOR (r : Nat)
  /-- GetInt on a string register / GetStr on an integer register -/
  | typeMismatch
  /-- "string is too large for memory" in `readStr` -/
  | strTooLarge (n : Nat)
  /-- "address [a] is out of range" (PEEK / POKE) -/
  | addrOOR (a : Nat)
  /-- "value [v] is out of range" (POKE) -/
  | valOOR (v : Nat)
  /-- "devision by zero" -/
  | divByZero
  /-- "stackunderflow" -/
  | stackUnderflow
  /-- "failed to convert string to int" (STR_TO_INT) -/
  | atoiFail
  /-- "error invoking system" (SYSTEM) -/
  | sysFail
  /-- "invalid trap number" -/
  | badTrapNum (n : Nat)
  /-- "trap function not defined" (`TrapNOP` in traps.go) -/
  | trapUndefined (n : Nat)
  /-- standard-input read failure in `ReadStringTrap` -/
  | stdinFail
  /-- "unknown opcode" -/
  | unknownOp (b : Nat)
  /-- "reading beyond RAM" -/
  | beyondRAM
  /-- "timeout during execution" (context cancelled) -/
  | timeout
  deriving DecidableEq, Repr

/-- Result of running a piece of Go code: `fault` models a runtime panic
(out-of-bounds array index), `err` a returned `error`, `ok` success. -/
inductive Outcome (α : Type) where
  | fault : Outcome α
  | err : VMErr → Outcome α
  | ok : α → Outcome α
  deriving DecidableEq, Repr

namespace Outcome

def bind : Outcome α → (α → Outcome β) → Outcome β
  | .fault, _ => .fault
  | .err e, _ => .err e
  | .ok a, f => f a

instance : Monad Outcome where
  pure := .ok
  bind := bind

@[simp] theorem bind_eq (x : Outcome α) (f : α → Outcome β) :
    x >>= f = Outcome.bind x f := rfl

@[simp] theorem pure_eq (a : α) : (pure a : Outcome α) = .ok a := rfl

@[simp] theorem bind_fault (f : α → Outcome β) :
    Outcome.bind .fault f = .fault := rfl

@[simp] theorem bind_err (e : VMErr) (f : α → Outcome β) :
    Outcome.bind (.err e) f = .err e := rfl

@[simp] theorem bind_ok (a : α) (f : α → Outcome β) :
    Outcome.bind (.ok a) f = f a := rfl

theorem bind_eq_ok {x : Outcome α} {f : α → Outcome β} {b : β} :
    Outcome.bind x f = .ok b ↔ ∃ a, x = .ok a ∧ f a = .ok b := by
  cases x <;> simp [Outcome.bind]

theorem bind_ne_fault {x : Outcome α} {f : α → Outcome β}
    (hx : x ≠ .fault) (hf : ∀ a, x = .ok a → f a ≠ .fault) :
    Outcome.bind x f ≠ .fault := by
  cases x with
  | fault => exact absurd rfl hx
  | err e => simp [Outcome.bind]
  | ok a => simpa [Outcome.bind] using hf a rfl

end Outcome

/-- A register value: `IntObject` or `StrObject` (`register.go`).  VM
strings are modelled as their character (rune) sequences. -/
inductive Obj where
  | int (v : Nat)
  | str (s : List Char)
  deriving DecidableEq, Repr

/-- `Register.SetInt`: integers are clamped into `0 .. 0xffff` on store
(values `≤ 0` become 0, values `≥ 0xffff` become `0xffff`). -/
def SetInt (v : Int) : Obj :=
  if v ≤ 0 then .int 0
  else if v ≥ (maxMemSize : Int) then .int maxMemSize
  else .int v.toNat

/-- `Register.GetInt`: the integer content, or a type-mismatch error. -/
def GetInt : Obj → Outcome Nat
  | .int v => .ok v
  | .str _ => .err .typeMismatch

/-- `Register.GetStr`: the string content, or a type-mismatch error. -/
def GetStr : Obj → Outcome (List Char)
  | .str s => .ok s
  | .int _ => .err .typeMismatch

/-- The CPU state (`CPU` struct in `cpu.go`): 15 registers, the zero flag,
0xFFFF bytes of RAM, the instruction pointer and the stack.  Registers and
memory are total functions; only indices `0..14` (registers) and
`0..0xfffe` (memory) are ever used, and every memory access in the
semantics goes through the checked `mRead`/`mWrite`. -/
structure CPU where
  regs : Nat → Obj
  z : Bool
  mem : Nat → Nat
  ip : Nat
  stack : List Nat

/-- Checked RAM read: Go `c.mem[i]` panics when `i ≥ 0xffff`. -/
def mRead (m : Nat → Nat) (i : Nat) : Outcome Nat :=
  if i < maxMemSize then .ok (m i) else .fault

/-- Checked RAM write: Go `c.mem[i] = v` panics when `i ≥ 0xffff`. -/
def mWrite (m : Nat → Nat) (i v : Nat) : Outcome (Nat → Nat) :=
  if i < maxMemSize then .ok (Function.update m i v) else .fault

@[simp] theorem mRead_lt {m : Nat → Nat} {i : Nat} (h : i < maxMemSize) :
    mRead m i = .ok (m i) := by simp [mRead, h]

@[simp] theorem mRead_ge {m : Nat → Nat} {i : Nat} (h : ¬ i < maxMemSize) :
    mRead m i = .fault := by simp [mRead, h]

theorem mRead_ne_fault_iff {m : Nat → Nat} {i : Nat} :
    mRead m i ≠ .fault ↔ i < maxMemSize := by
  unfold mRead; split <;> simp_all

/-- `CPU.readInt`: read the two bytes at `ip` and `ip+1` as a little-endian
16-bit value `r + q*256` and move the cursor past them. -/
def readInt (m : Nat → Nat) (ip : Nat) : Outcome (Nat × Nat) := do
  let r ← mRead m ip
  let q ← mRead m (ip + 1)
  pure (r + q * 256, ip + 2)

theorem readInt_eq {m : Nat → Nat} {ip : Nat} (h : ip + 1 < maxMemSize) :
    readInt m ip = .ok (m ip + m (ip + 1) * 256, ip + 2) := by
  have h0 : ip < maxMemSize := by omega
  simp [readInt, h0, h]

/-- The payload loop of `CPU.readStr`: read `n` more bytes, the next one at
`tmpIP = ip + i`; a cursor equal to `0xffff` is reset to 0 ("wrap around"),
any other out-of-bounds cursor faults, exactly as the Go index would. -/
def readStrLoop (m : Nat → Nat) (ip i : Nat) : Nat → Outcome (List Char)
  | 0 => .ok []
  | n + 1 => do
    let tmpIP := ip + i
    let tmpIP := if tmpIP = maxMemSize then 0 else tmpIP
    let b ← mRead m tmpIP
    let rest ← readStrLoop m ip (i + 1) n
    pure (Char.ofNat b :: rest)

/-- `CPU.readStr`: a 16-bit length prefix via `readInt`, a fatal error when
the declared length is `≥ 0xffff`, then the payload loop; finally the
cursor is moved over the string length. -/
def readStr (m : Nat → Nat) (ip : Nat) : Outcome (List Char × Nat) := do
  let (strLen, ip') ← readInt m ip
  if strLen ≥ maxMemSize then
    Outcome.err (.strTooLarge strLen)
  else do
    let s ← readStrLoop m ip' 0 strLen
    pure (s, ip' + strLen)

/-- The MEM_CPY copy loop in `Run`: before each byte both cursors are reset
to 0 when they are `≥ 0xffff`, so the read and the write are always in
bounds; the checked accessors make that visible. -/
def memCpyLoop (m : Nat → Nat) (dstAddr srcAddr : Nat) :
    Nat → Outcome (Nat → Nat)
  | 0 => .ok m
  | n + 1 => do
    let dstAddr := if dstAddr ≥ maxMemSize then 0 else dstAddr
    let srcAddr := if srcAddr ≥ maxMemSize then 0 else srcAddr
    let b ← mRead m srcAddr
    let m' ← mWrite m dstAddr b
    memCpyLoop m' (dstAddr + 1) (srcAddr + 1) n

/-! Plain-library helpers used by the interpreter: hexadecimal and decimal
formatting (Go `fmt`), decimal parsing (`strconv.Atoi`), whitespace
trimming (`strings.TrimSpace`) and the byte length of a string. -/

/-- One lowercase hexadecimal digit character. -/
def hexDigitChar (d : Nat) : Char :=
  Char.ofNat (if d < 10 then 48 + d else 87 + d)

/-- Digit accumulator for `hexChars`; the fuel is an upper bound on the
number of digits, so the recursion is structural. -/
def hexCharsCore (fuel : Nat) (n : Nat) (acc : List Char) : List Char :=
  match fuel with
  | 0 => acc
  | f + 1 =>
    if n < 16 then hexDigitChar n :: acc
    else hexCharsCore f (n / 16) (hexDigitChar (n % 16) :: acc)

/-- The minimal lowercase hexadecimal form of `n` (what Go `%x` prints). -/
def hexChars (n : Nat) : List Char := hexCharsCore (n + 1) n []

/-- Zero-padding to width `w`: Go `%02x` / `%04x`. -/
def padHex (w n : Nat) : List Char :=
  List.replicate (w - (hexChars n).length) '0' ++ hexChars n

/-- Digit accumulator for `decChars`. -/
def decCharsCore (fuel : Nat) (n : Nat) (acc : List Char) : List Char :=
  match fuel with
  | 0 => acc
  | f + 1 =>
    if n < 10 then Char.ofNat (48 + n) :: acc
    else decCharsCore f (n / 10) (Char.ofNat (48 + n % 10) :: acc)

/-- The decimal form of `n` (Go `fmt.Sprintf` with the integer verb on a
non-negative value, as used by INT_TO_STR). -/
def decChars (n : Nat) : List Char := decCharsCore (n + 1) n []

/-- A decimal digit's value, or `none`. -/
def decDigit (c : Char) : Option Nat :=
  if 48 ≤ c.toNat ∧ c.toNat ≤ 57 then some (c.toNat - 48) else none

def decValCore : List Char → Nat → Option Nat
  | [], acc => some acc
  | c :: cs, acc =>
    match decDigit c with
    | some d => decValCore cs (acc * 10 + d)
    | none => none

/-- The value of a non-empty all-digit string. -/
def decVal : List Char → Option Nat
  | [] => none
  | cs => decValCore cs 0

/-- Model of `strconv.Atoi`: an optional sign followed by at least one
decimal digit and nothing else.  (The 64-bit range check is not modelled;
no claim depends on it.) -/
def Atoi (s : List Char) : Option Int :=
  match s with
  | '+' :: rest => (decVal rest).map (fun n => (n : Int))
  | '-' :: rest => (decVal rest).map (fun n => -(n : Int))
  | _ => (decVal s).map (fun n => (n : Int))

/-- White space as recognised by `strings.TrimSpace` (ASCII part plus
U+0085 and U+00A0; the remaining Unicode space runes are not modelled). -/
def isSpaceGo (c : Char) : Bool :=
  c.toNat = 9 || c.toNat = 10 || c.toNat = 11 || c.toNat = 12 ||
  c.toNat = 13 || c.toNat = 32 || c.toNat = 133 || c.toNat = 160

/-- Model of `strings.TrimSpace`. -/
def trimSpace (s : List Char) : List Char :=
  ((s.dropWhile isSpaceGo).reverse.dropWhile isSpaceGo).reverse

/-- UTF-8 byte count of one rune (Go `len` on strings counts bytes). -/
def charByteLen (c : Char) : Nat :=
  if c.toNat < 0x80 then 1
  else if c.toNat < 0x800 then 2
  else if c.toNat < 0x10000 then 3
  else 4

/-- Byte length of a string, Go `len(str)`. -/
def strByteLen (s : List Char) : Nat := (s.map charByteLen).sum

/-- External effects supplied to one execution step: the cancellation
signal (`ctx.Done()`), the value the freshly seeded random source would
produce, the line standard input would deliver (`none` = read error) and
the captured output of a subprocess (`none` = `cmd.Run` failure). -/
structure World where
  cancelled : Bool
  randVal : Nat
  stdinLine : Option (List Char)
  sysResult : List Char → Option (List Char)

/-- A quiet world for concrete executions. -/
def World.quiet : World :=
  { cancelled := false, randVal := 0, stdinLine := none,
    sysResult := fun _ => none }

/-- Result of one successful decode-dispatch step. -/
structure StepR where
  halted : Bool
  cpu : CPU
  out : List Char

/-- Number of registers: `len(c.regs) = 15`. -/
def numRegs : Nat := 15

/-- The recurring Go pair `reg := int(c.mem[c.ip]); if reg >= len(c.regs)`:
fetch a register operand byte and range-check it. -/
def readReg (m : Nat → Nat) (i : Nat) : Outcome Nat := do
  let r ← mRead m i
  if r ≥ numRegs then Outcome.err (.regOOR r) else pure r

/-- Three consecutive register operands (dst, a, b). -/
def readReg3 (m : Nat → Nat) (i : Nat) : Outcome (Nat × Nat × Nat) := do
  let res ← readReg m i
  let a ← readReg m (i + 1)
  let b ← readReg m (i + 2)
  pure (res, a, b)

/-! One definition per case of the `switch` in `CPU.Run`.  Each takes the
state with `ip` still at the opcode byte and performs the same reads,
checks and writes in the same order as its Go case block, including the
final value of the instruction pointer. -/

def execINT_STORE (s : CPU) : Outcome CPU := do
  let reg ← readReg s.mem (s.ip + 1)
  let (val, ip') ← readInt s.mem (s.ip + 2)
  pure { s with regs := Function.update s.regs reg (SetInt val), ip := ip' }

def execINT_PRINT (s : CPU) : Outcome (CPU × List Char) := do
  let reg ← readReg s.mem (s.ip + 1)
  let val ← GetInt (s.regs reg)
  let out := if val < 256 then padHex 2 val else padHex 4 val
  pure ({ s with ip := s.ip + 2 }, out)

def execINT_TO_STR (s : CPU) : Outcome CPU := do
  let reg ← readReg s.mem (s.ip + 1)
  let i ← GetInt (s.regs reg)
  pure { s with regs := Function.update s.regs reg (.str (decChars i)),
                ip := s.ip + 2 }

def execINT_RAND (w : World) (s : CPU) : Outcome CPU := do
  let reg ← readReg s.mem (s.ip + 1)
  -- r.Intn(maxMemSize) yields a value in [0, 0xffff)
  let v := w.randVal % maxMemSize
  pure { s with regs := Function.update s.regs reg (SetInt v),
                ip := s.ip + 2 }

def execJMP (s : CPU) : Outcome CPU := do
  let (addr, _) ← readInt s.mem (s.ip + 1)
  pure { s with ip := addr }

def execJMP_Z (s : CPU) : Outcome CPU := do
  let (addr, ip') ← readInt s.mem (s.ip + 1)
  pure { s with ip := if s.z then addr else ip' }

def execJMP_NZ (s : CPU) : Outcome CPU := do
  let (addr, ip') ← readInt s.mem (s.ip + 1)
  pure { s with ip := if s.z then ip' else addr }

def execADD (s : CPU) : Outcome CPU := do
  let (res, a, b) ← readReg3 s.mem (s.ip + 1)
  let aVal ← GetInt (s.regs a)
  let bVal ← GetInt (s.regs b)
  pure { s with regs := Function.update s.regs res (SetInt (aVal + bVal)),
                ip := s.ip + 4 }

def execSUB (s : CPU) : Outcome CPU := do
  let (res, a, b) ← readReg3 s.mem (s.ip + 1)
  let aVal ← GetInt (s.regs a)
  let bVal ← GetInt (s.regs b)
  let regs' := Function.update s.regs res (SetInt ((aVal : Int) - bVal))
  -- the Go code re-reads the stored result and only SETS the flag:
  -- `if resVal <= 0 { c.flags.z = true }` (no else branch)
  let resVal ← GetInt (regs' res)
  let z' := if resVal ≤ 0 then true else s.z
  pure { s with regs := regs', z := z', ip := s.ip + 4 }

def execMUL (s : CPU) : Outcome CPU := do
  let (res, a, b) ← readReg3 s.mem (s.ip + 1)
  let aVal ← GetInt (s.regs a)
  let bVal ← GetInt (s.regs b)
  pure { s with regs := Function.update s.regs res (SetInt (aVal * bVal)),
                ip := s.ip + 4 }

def execDIV (s : CPU) : Outcome CPU := do
  let (res, a, b) ← readReg3 s.mem (s.ip + 1)
  let aVal ← GetInt (s.regs a)
  let bVal ← GetInt (s.regs b)
  if bVal = 0 then Outcome.err .divByZero
  else
    pure { s with regs := Function.update s.regs res (SetInt (aVal / bVal)),
                  ip := s.ip + 4 }

def execINC (s : CPU) : Outcome CPU := do
  let reg ← readReg s.mem (s.ip + 1)
  let i ← GetInt (s.regs reg)
  let i' := if i = maxMemSize then 0 else i + 1
  pure { s with z := decide (i' = 0),
                regs := Function.update s.regs reg (SetInt i'),
                ip := s.ip + 2 }

def execDEC (s : CPU) : Outcome CPU := do
  let reg ← readReg s.mem (s.ip + 1)
  let i ← GetInt (s.regs reg)
  let i' := if i = 0 then maxMemSize else i - 1
  pure { s with z := decide (i' = 0),
                regs := Function.update s.regs reg (SetInt i'),
                ip := s.ip + 2 }

def execAND (s : CPU) : Outcome CPU := do
  let (res, a, b) ← readReg3 s.mem (s.ip + 1)
  let aVal ← GetInt (s.regs a)
  let bVal ← GetInt (s.regs b)
  pure { s with regs := Function.update s.regs res (SetInt (aVal &&& bVal)),
                ip := s.ip + 4 }

def execOR (s : CPU) : Outcome CPU := do
  let (res, a, b) ← readReg3 s.mem (s.ip + 1)
  let aVal ← GetInt (s.regs a)
  let bVal ← GetInt (s.regs b)
  pure { s with regs := Function.update s.regs res (SetInt (aVal ||| bVal)),
                ip := s.ip + 4 }

def execXOR (s : CPU) : Outcome CPU := do
  let (res, a, b) ← readReg3 s.mem (s.ip + 1)
  let aVal ← GetInt (s.regs a)
  let bVal ← GetInt (s.regs b)
  pure { s with regs := Function.update s.regs res (SetInt (aVal ^^^ bVal)),
                ip := s.ip + 4 }

def execSTR_STORE (s : CPU) : Outcome CPU := do
  let reg ← readReg s.mem (s.ip + 1)
  let (str, ip') ← readStr s.mem (s.ip + 2)
  pure { s with regs := Function.update s.regs reg (.str str), ip := ip' }

def execSTR_PRINT (s : CPU) : Outcome (CPU × List Char) := do
  let reg ← readReg s.mem (s.ip + 1)
  let str ← GetStr (s.regs reg)
  pure ({ s with ip := s.ip + 2 }, str)

def execCONCAT (s : CPU) : Outcome CPU := do
  let (res, a, b) ← readReg3 s.mem (s.ip + 1)
  let aVal ← GetStr (s.regs a)
  let bVal ← GetStr (s.regs b)
  pure { s with regs := Function.update s.regs res (.str (aVal ++ bVal)),
                ip := s.ip + 4 }

/-- SYSTEM: the subprocess (split, spawn, capture) is summarised by
`w.sysResult`.  Note the Go case block never advances `ip` past its
register operand, so execution continues at `ip + 1`. -/
def execSYSTEM (w : World) (s : CPU) : Outcome (CPU × List Char) := do
  let reg ← readReg s.mem (s.ip + 1)
  let str ← GetStr (s.regs reg)
  match w.sysResult str with
  | none => Outcome.err .sysFail
  | some out => pure ({ s with ip := s.ip + 1 }, out)

def execSTR_TO_INT (s : CPU) : Outcome CPU := do
  let reg ← readReg s.mem (s.ip + 1)
  let str ← GetStr (s.regs reg)
  match Atoi str with
  | none => Outcome.err .atoiFail
  | some i =>
    pure { s with regs := Function.update s.regs reg (SetInt i),
                  ip := s.ip + 2 }

def execCMP_INT (s : CPU) : Outcome CPU := do
  let reg ← readReg s.mem (s.ip + 1)
  let (val, ip') ← readInt s.mem (s.ip + 2)
  let z' :=
    match s.regs reg with
    | .int regVal => decide (regVal = val)
    | .str _ => false
  pure { s with z := z', ip := ip' }

def execCMP_STR (s : CPU) : Outcome CPU := do
  let reg ← readReg s.mem (s.ip + 1)
  let (val, ip') ← readStr s.mem (s.ip + 2)
  let z' :=
    match s.regs reg with
    | .str regVal => decide (regVal = val)
    | .int _ => false
  pure { s with z := z', ip := ip' }

/-- CMP_REG dispatches on the first register's variant and then calls the
matching getter on the second register, so unlike variants surface a
type-mismatch error. -/
def execCMP_REG (s : CPU) : Outcome CPU := do
  let reg1 ← readReg s.mem (s.ip + 1)
  let reg2 ← readReg s.mem (s.ip + 2)
  match s.regs reg1 with
  | .int a => do
    let b ← GetInt (s.regs reg2)
    pure { s with z := decide (a = b), ip := s.ip + 3 }
  | .str a => do
    let b ← GetStr (s.regs reg2)
    pure { s with z := decide (a = b), ip := s.ip + 3 }

def execIS_INT (s : CPU) : Outcome CPU := do
  let reg ← readReg s.mem (s.ip + 1)
  let z' := match s.regs reg with | .int _ => true | .str _ => false
  pure { s with z := z', ip := s.ip + 2 }

def execIS_STR (s : CPU) : Outcome CPU := do
  let reg ← readReg s.mem (s.ip + 1)
  let z' := match s.regs reg with | .str _ => true | .int _ => false
  pure { s with z := z', ip := s.ip + 2 }

/-- REG_STORE copies whichever variant the source holds; like SYSTEM and
POKE its Go case block has no trailing `c.ip++`, so `ip` ends on the
source operand byte. -/
def execREG_STORE (s : CPU) : Outcome CPU := do
  let dst ← readReg s.mem (s.ip + 1)
  let src ← readReg s.mem (s.ip + 2)
  match s.regs src with
  | .int v =>
    pure { s with regs := Function.update s.regs dst (SetInt v),
                  ip := s.ip + 2 }
  | .str v =>
    pure { s with regs := Function.update s.regs dst (.str v),
                  ip := s.ip + 2 }

def execPEEK (s : CPU) : Outcome CPU := do
  let reg1 ← readReg s.mem (s.ip + 1)
  let reg2 ← readReg s.mem (s.ip + 2)
  let addr ← GetInt (s.regs reg2)
  if addr ≥ maxMemSize then Outcome.err (.addrOOR addr)
  else do
    let b ← mRead s.mem addr
    pure { s with regs := Function.update s.regs reg1 (SetInt b),
                  ip := s.ip + 3 }

def execPOKE (s : CPU) : Outcome CPU := do
  let reg1 ← readReg s.mem (s.ip + 1)
  let reg2 ← readReg s.mem (s.ip + 2)
  let val ← GetInt (s.regs reg1)
  if val ≥ maxMemSize then Outcome.err (.valOOR val)
  else do
    let addr ← GetInt (s.regs reg2)
    if addr ≥ maxMemSize then Outcome.err (.addrOOR addr)
    else do
      -- c.mem[addr] = byte(val): the cast keeps only the low 8 bits
      let m' ← mWrite s.mem addr (val % 256)
      pure { s with mem := m', ip := s.ip + 2 }

def execMEM_CPY (s : CPU) : Outcome CPU := do
  let (dst, src, lng) ← readReg3 s.mem (s.ip + 1)
  let dstAddr ← GetInt (s.regs dst)
  let srcAddr ← GetInt (s.regs src)
  let length ← GetInt (s.regs lng)
  let m' ← memCpyLoop s.mem dstAddr srcAddr length
  pure { s with mem := m', ip := s.ip + 4 }

def execPUSH (s : CPU) : Outcome CPU := do
  let reg ← readReg s.mem (s.ip + 1)
  let val ← GetInt (s.regs reg)
  pure { s with stack := val :: s.stack, ip := s.ip + 2 }

def execPOP (s : CPU) : Outcome CPU := do
  let reg ← readReg s.mem (s.ip + 1)
  match s.stack with
  | [] => Outcome.err .stackUnderflow
  | val :: rest =>
    pure { s with regs := Function.update s.regs reg (SetInt val),
                  stack := rest, ip := s.ip + 2 }

def execCALL (s : CPU) : Outcome CPU := do
  let (addr, ip') ← readInt s.mem (s.ip + 1)
  pure { s with stack := ip' :: s.stack, ip := addr }

def execRET (s : CPU) : Outcome CPU :=
  match s.stack with
  | [] => Outcome.err .stackUnderflow
  | addr :: rest => .ok { s with ip := addr, stack := rest }

/-- The three installed traps (`traps.go`); every other index holds
`TrapNOP`, which reports an undefined-trap error. -/
def runTrap (w : World) (num : Nat) (s : CPU) : Outcome CPU :=
  match num with
  | 0 => do
    let str ← GetStr (s.regs 0)
    pure { s with regs := Function.update s.regs 0 (SetInt (strByteLen str)) }
  | 1 =>
    match w.stdinLine with
    | none => Outcome.err .stdinFail
    | some l => .ok { s with regs := Function.update s.regs 0 (.str l) }
  | 2 => do
    let str ← GetStr (s.regs 0)
    pure { s with regs := Function.update s.regs 0 (.str (trimSpace str)) }
  | _ => Outcome.err (.trapUndefined num)

def execTRAP (w : World) (s : CPU) : Outcome CPU := do
  let (num, ip') ← readInt s.mem (s.ip + 1)
  if num ≥ maxMemSize then Outcome.err (.badTrapNum num)
  else runTrap w num { s with ip := ip' }

/-- The loop-bottom wrap: `if c.ip > maxMemSize { c.ip = 0 }`. -/
def wrapIP (s : CPU) : CPU :=
  if s.ip > maxMemSize then { s with ip := 0 } else s

def noOut (x : Outcome CPU) : Outcome StepR :=
  x.bind fun s' => .ok ⟨false, wrapIP s', []⟩

def withOut (x : Outcome (CPU × List Char)) : Outcome StepR :=
  x.bind fun p => .ok ⟨false, wrapIP p.1, p.2⟩

/-- The `switch int(op.Value())` of `CPU.Run`, dispatching on the fetched
opcode byte. -/
def stepOp (w : World) (s : CPU) (op : Nat) : Outcome StepR :=
  if op = 0x00 then .ok ⟨true, wrapIP s, []⟩
      else if op = 0x01 then noOut (execINT_STORE s)
      else if op = 0x02 then withOut (execINT_PRINT s)
      else if op = 0x03 then noOut (execINT_TO_STR s)
      else if op = 0x04 then noOut (execINT_RAND w s)
      else if op = 0x10 then noOut (execJMP s)
      else if op = 0x11 then noOut (execJMP_Z s)
      else if op = 0x12 then noOut (execJMP_NZ s)
      else if op = 0x20 then noOut (execADD s)
      else if op = 0x21 then noOut (execSUB s)
      else if op = 0x22 then noOut (execMUL s)
      else if op = 0x23 then noOut (execDIV s)
      else if op = 0x24 then noOut (execINC s)
      else if op = 0x25 then noOut (execDEC s)
      else if op = 0x26 then noOut (execAND s)
      else if op = 0x27 then noOut (execOR s)
      else if op = 0x28 then noOut (execXOR s)
      else if op = 0x30 then noOut (execSTR_STORE s)
      else if op = 0x31 then withOut (execSTR_PRINT s)
      else if op = 0x32 then noOut (execCONCAT s)
      else if op = 0x33 then withOut (execSYSTEM w s)
      else if op = 0x34 then noOut (execSTR_TO_INT s)
      else if op = 0x40 then noOut (execCMP_INT s)
      else if op = 0x41 then noOut (execCMP_STR s)
      else if op = 0x42 then noOut (execCMP_REG s)
      else if op = 0x43 then noOut (execIS_INT s)
      else if op = 0x44 then noOut (execIS_STR s)
      else if op = 0x50 then noOut (.ok { s with ip := s.ip + 1 })
      else if op = 0x51 then noOut (execREG_STORE s)
      else if op = 0x60 then noOut (execPEEK s)
      else if op = 0x61 then noOut (execPOKE s)
      else if op = 0x62 then noOut (execMEM_CPY s)
      else if op = 0x70 then noOut (execPUSH s)
      else if op = 0x71 then noOut (execPOP s)
      else if op = 0x72 then noOut (execCALL s)
      else if op = 0x73 then noOut (execRET s)
  else if op = 0x80 then noOut (execTRAP w s)
  else .err (.unknownOp op)

/-- One iteration of the decode-dispatch loop in `CPU.Run`: the
"reading beyond RAM" guard, the fetch `op = c.mem[c.ip]` (in bounds after
the guard), the cancellation test, the opcode `switch` and the final
instruction-pointer wrap (applied inside each case's continuation). -/
def step (w : World) (s : CPU) : Outcome StepR :=
  if s.ip ≥ maxMemSize then .err .beyondRAM
  else if w.cancelled then .err .timeout
  else stepOp w s (s.mem s.ip)

/-! Dispatch lemmas: how `step` reaches each opcode's case. -/

theorem step_ok_ip {w : World} {s : CPU} {r : StepR}
    (h : step w s = .ok r) : s.ip < maxMemSize := by
  unfold step at h
  split at h
  · cases h
  · omega

theorem step_ok_cancelled {w : World} {s : CPU} {r : StepR}
    (h : step w s = .ok r) : w.cancelled = false := by
  unfold step at h
  split at h
  · cases h
  · split at h
    · cases h
    · rename_i hc
      simpa using hc

theorem step_eq_stepOp {w : World} {s : CPU} (hip : s.ip < maxMemSize)
    (hc : w.cancelled = false) : step w s = stepOp w s (s.mem s.ip) := by
  unfold step
  rw [if_neg (by omega), hc]
  simp

theorem stepOp_EXIT (w : World) (s : CPU) :
    stepOp w s 0x00 = .ok ⟨true, wrapIP s, []⟩ := rfl

theorem stepOp_INT_STORE (w : World) (s : CPU) :
    stepOp w s 0x01 = noOut (execINT_STORE s) := rfl

theorem stepOp_INT_PRINT (w : World) (s : CPU) :
    stepOp w s 0x02 = withOut (execINT_PRINT s) := rfl

theorem stepOp_INT_TO_STR (w : World) (s : CPU) :
    stepOp w s 0x03 = noOut (execINT_TO_STR s) := rfl

theorem stepOp_INT_RAND (w : World) (s : CPU) :
    stepOp w s 0x04 = noOut (execINT_RAND w s) := rfl

theorem stepOp_JMP (w : World) (s : CPU) :
    stepOp w s 0x10 = noOut (execJMP s) := rfl

theorem stepOp_JMP_Z (w : World) (s : CPU) :
    stepOp w s 0x11 = noOut (execJMP_Z s) := rfl

theorem stepOp_JMP_NZ (w : World) (s : CPU) :
    stepOp w s 0x12 = noOut (execJMP_NZ s) := rfl

theorem stepOp_ADD (w : World) (s : CPU) :
    stepOp w s 0x20 = noOut (execADD s) := rfl

theorem stepOp_SUB (w : World) (s : CPU) :
    stepOp w s 0x21 = noOut (execSUB s) := rfl

theorem stepOp_MUL (w : World) (s : CPU) :
    stepOp w s 0x22 = noOut (execMUL s) := rfl

theorem stepOp_DIV (w : World) (s : CPU) :
    stepOp w s 0x23 = noOut (execDIV s) := rfl

theorem stepOp_INC (w : World) (s : CPU) :
    stepOp w s 0x24 = noOut (execINC s) := rfl

theorem stepOp_DEC (w : World) (s : CPU) :
    stepOp w s 0x25 = noOut (execDEC s) := rfl

theorem stepOp_AND (w : World) (s : CPU) :
    stepOp w s 0x26 = noOut (execAND s) := rfl

theorem stepOp_OR (w : World) (s : CPU) :
    stepOp w s 0x27 = noOut (execOR s) := rfl

theorem stepOp_XOR (w : World) (s : CPU) :
    stepOp w s 0x28 = noOut (execXOR s) := rfl

theorem stepOp_STR_STORE (w : World) (s : CPU) :
    stepOp w s 0x30 = noOut (execSTR_STORE s) := rfl

theorem stepOp_STR_PRINT (w : World) (s : CPU) :
    stepOp w s 0x31 = withOut (execSTR_PRINT s) := rfl

theorem stepOp_CONCAT (w : World) (s : CPU) :
    stepOp w s 0x32 = noOut (execCONCAT s) := rfl

theorem stepOp_SYSTEM (w : World) (s : CPU) :
    stepOp w s 0x33 = withOut (execSYSTEM w s) := rfl

theorem stepOp_STR_TO_INT (w : World) (s : CPU) :
    stepOp w s 0x34 = noOut (execSTR_TO_INT s) := rfl

theorem stepOp_CMP_INT (w : World) (s : CPU) :
    stepOp w s 0x40 = noOut (execCMP_INT s) := rfl

theorem stepOp_CMP_STR (w : World) (s : CPU) :
    stepOp w s 0x41 = noOut (execCMP_STR s) := rfl

theorem stepOp_CMP_REG (w : World) (s : CPU) :
    stepOp w s 0x42 = noOut (execCMP_REG s) := rfl

theorem stepOp_IS_INT (w : World) (s : CPU) :
    stepOp w s 0x43 = noOut (execIS_INT s) := rfl

theorem stepOp_IS_STR (w : World) (s : CPU) :
    stepOp w s 0x44 = noOut (execIS_STR s) := rfl

theorem stepOp_NOP (w : World) (s : CPU) :
    stepOp w s 0x50 = noOut (.ok { s with ip := s.ip + 1 }) := rfl

theorem stepOp_REG_STORE (w : World) (s : CPU) :
    stepOp w s 0x51 = noOut (execREG_STORE s) := rfl

theorem stepOp_PEEK (w : World) (s : CPU) :
    stepOp w s 0x60 = noOut (execPEEK s) := rfl

theorem stepOp_POKE (w : World) (s : CPU) :
    stepOp w s 0x61 = noOut (execPOKE s) := rfl

theorem stepOp_MEM_CPY (w : World) (s : CPU) :
    stepOp w s 0x62 = noOut (execMEM_CPY s) := rfl

theorem stepOp_PUSH (w : World) (s : CPU) :
    stepOp w s 0x70 = noOut (execPUSH s) := rfl

theorem stepOp_POP (w : World) (s : CPU) :
    stepOp w s 0x71 = noOut (execPOP s) := rfl

theorem stepOp_CALL (w : World) (s : CPU) :
    stepOp w s 0x72 = noOut (execCALL s) := rfl

theorem stepOp_RET (w : World) (s : CPU) :
    stepOp w s 0x73 = noOut (execRET s) := rfl

theorem stepOp_TRAP (w : World) (s : CPU) :
    stepOp w s 0x80 = noOut (execTRAP w s) := rfl

/-- The list of opcode byte values the dispatcher recognises. -/
def knownOps : List Nat :=
  [0x00, 0x01, 0x02, 0x03, 0x04, 0x10, 0x11, 0x12,
   0x20, 0x21, 0x22, 0x23, 0x24, 0x25, 0x26, 0x27, 0x28,
   0x30, 0x31, 0x32, 0x33, 0x34, 0x40, 0x41, 0x42, 0x43, 0x44,
   0x50, 0x51, 0x60, 0x61, 0x62, 0x70, 0x71, 0x72, 0x73, 0x80]

theorem stepOp_unknown (w : World) (s : CPU) {op : Nat}
    (hop : op ∉ knownOps) : stepOp w s op = .err (.unknownOp op) := by
  unfold stepOp
  repeat rw [if_neg (by intro hh; subst hh; simp [knownOps] at hop)]

/-- `CPU.Reset`: fresh `Int(0)` registers, `ip = 0`, a fresh empty stack.
Neither the flags nor the memory are touched. -/
def Reset (s : CPU) : CPU :=
  { s with regs := fun _ => .int 0, ip := 0, stack := [] }

/-- `CPU.LoadBytes`: reset, complain when the program is too large (the
copy still happens, bounded by the RAM size), copy the program to offset 0.
Bytes of a previously loaded program beyond `data.length` stay in RAM. -/
def LoadBytes (s : CPU) (data : List Nat) : CPU :=
  let s := Reset s
  { s with mem := fun i =>
      if i < data.length ∧ i < maxMemSize then data.getD i 0 else s.mem i }

/-! Observers used to state concrete executions: `CPU` contains functions,
so propositions about a whole step result are phrased through these
decidable projections. -/

/-- The zero flag after a successful step. -/
def stepZ (w : World) (s : CPU) : Option Bool :=
  match step w s with
  | .ok r => some r.cpu.z
  | _ => none

/-- The integer content of register `i` after a successful step. -/
def stepRegInt (w : World) (s : CPU) (i : Nat) : Option Nat :=
  match step w s with
  | .ok r => match r.cpu.regs i with | .int v => some v | .str _ => none
  | _ => none

/-- The memory byte at `i` after a successful step. -/
def stepMem (w : World) (s : CPU) (i : Nat) : Option Nat :=
  match step w s with
  | .ok r => some (r.cpu.mem i)
  | _ => none

/-- The output of a successful step. -/
def stepOut (w : World) (s : CPU) : Option (List Char) :=
  match step w s with
  | .ok r => some r.out
  | _ => none

/-- The error a step returned, when it returned one. -/
def stepErrOf (w : World) (s : CPU) : Option VMErr :=
  match step w s with
  | .err e => some e
  | _ => none

/-- Whether the step faulted (a Go runtime panic). -/
def stepFaults (w : World) (s : CPU) : Bool :=
  match step w s with
  | .fault => true
  | _ => false

/-! Decomposition lemmas for `Outcome` chains and the step plumbing. -/

theorem Outcome.bind_eq_fault {x : Outcome α} {f : α → Outcome β} :
    Outcome.bind x f = .fault ↔
      x = .fault ∨ ∃ a, x = .ok a ∧ f a = .fault := by
  cases x <;> simp [Outcome.bind]

theorem Outcome.bind_eq_err {x : Outcome α} {f : α → Outcome β}
    {e : VMErr} :
    Outcome.bind x f = .err e ↔
      x = .err e ∨ ∃ a, x = .ok a ∧ f a = .err e := by
  cases x <;> simp [Outcome.bind]

theorem noOut_eq_ok {x : Outcome CPU} {r : StepR} :
    noOut x = .ok r ↔ ∃ s', x = .ok s' ∧ r = ⟨false, wrapIP s', []⟩ := by
  cases x <;> simp [noOut, Outcome.bind, eq_comm]

theorem withOut_eq_ok {x : Outcome (CPU × List Char)} {r : StepR} :
    withOut x = .ok r ↔
      ∃ p, x = .ok p ∧ r = ⟨false, wrapIP p.1, p.2⟩ := by
  cases x <;> simp [withOut, Outcome.bind, eq_comm]

theorem noOut_ne_fault {x : Outcome CPU} (h : x ≠ .fault) :
    noOut x ≠ .fault := by
  cases x with
  | fault => exact absurd rfl h
  | err e => simp [noOut, Outcome.bind]
  | ok a => simp [noOut, Outcome.bind]

theorem withOut_ne_fault {x : Outcome (CPU × List Char)} (h : x ≠ .fault) :
    withOut x ≠ .fault := by
  cases x with
  | fault => exact absurd rfl h
  | err e => simp [withOut, Outcome.bind]
  | ok a => simp [withOut, Outcome.bind]

@[simp] theorem wrapIP_z (s : CPU) : (wrapIP s).z = s.z := by
  unfold wrapIP; split <;> rfl

@[simp] theorem wrapIP_regs (s : CPU) : (wrapIP s).regs = s.regs := by
  unfold wrapIP; split <;> rfl

@[simp] theorem wrapIP_mem (s : CPU) : (wrapIP s).mem = s.mem := by
  unfold wrapIP; split <;> rfl

@[simp] theorem wrapIP_stack (s : CPU) : (wrapIP s).stack = s.stack := by
  unfold wrapIP; split <;> rfl

theorem wrapIP_of_le {s : CPU} (h : s.ip ≤ maxMemSize) : wrapIP s = s := by
  unfold wrapIP
  split
  · exfalso; omega
  · rfl

theorem readReg_eq {m : Nat → Nat} {i : Nat} (h : i < maxMemSize) :
    readReg m i =
      if m i ≥ numRegs then .err (.regOOR (m i)) else .ok (m i) := by
  simp [readReg, mRead, h, Outcome.bind]

theorem readReg_eq_ok {m : Nat → Nat} {i v : Nat} :
    readReg m i = .ok v ↔ i < maxMemSize ∧ v = m i ∧ m i < numRegs := by
  constructor
  · intro h
    unfold readReg mRead at h
    split at h
    · simp only [Outcome.bind_eq, Outcome.bind_ok] at h
      split at h
      · cases h
      · rename_i hge
        cases h
        exact ⟨by assumption, rfl, by omega⟩
    · cases h
  · rintro ⟨h1, rfl, h3⟩
    simp [readReg, mRead, h1]
    omega

theorem readReg_ne_fault {m : Nat → Nat} {i : Nat} (h : i < maxMemSize) :
    readReg m i ≠ .fault := by
  rw [readReg_eq h]; split <;> simp

theorem readReg3_eq_ok {m : Nat → Nat} {i : Nat} {t : Nat × Nat × Nat} :
    readReg3 m i = .ok t ↔
      readReg m i = .ok t.1 ∧ readReg m (i + 1) = .ok t.2.1 ∧
        readReg m (i + 2) = .ok t.2.2 := by
  obtain ⟨a, b, c⟩ := t
  constructor
  · intro h
    unfold readReg3 at h
    simp only [Outcome.bind_eq, Outcome.bind_eq_ok, Outcome.pure_eq] at h
    obtain ⟨x, hx, y, hy, z, hz, hv⟩ := h
    cases hv
    exact ⟨hx, hy, hz⟩
  · rintro ⟨hx, hy, hz⟩
    unfold readReg3
    simp [hx, hy, hz, Outcome.bind]

theorem readReg3_ne_fault {m : Nat → Nat} {i : Nat}
    (h : i + 2 < maxMemSize) : readReg3 m i ≠ .fault := by
  unfold readReg3
  refine Outcome.bind_ne_fault (readReg_ne_fault (by omega)) ?_
  intro a _
  refine Outcome.bind_ne_fault (readReg_ne_fault (by omega)) ?_
  intro b _
  refine Outcome.bind_ne_fault (readReg_ne_fault (by omega)) ?_
  intro c _
  simp

theorem GetInt_eq_ok {o : Obj} {v : Nat} : GetInt o = .ok v ↔ o = .int v := by
  cases o <;> simp [GetInt]

theorem GetStr_eq_ok {o : Obj} {v : List Char} :
    GetStr o = .ok v ↔ o = .str v := by
  cases o <;> simp [GetStr]

theorem GetInt_ne_fault (o : Obj) : GetInt o ≠ .fault := by
  cases o <;> simp [GetInt]

theorem GetStr_ne_fault (o : Obj) : GetStr o ≠ .fault := by
  cases o <;> simp [GetStr]

theorem readInt_ne_fault {m : Nat → Nat} {ip : Nat}
    (h : ip + 1 < maxMemSize) : readInt m ip ≠ .fault := by
  rw [readInt_eq h]; simp

/-- `SetInt` always stores the claim's `clamp(v, 0, 0xffff)`. -/
def clamp16 (v : Int) : Nat :=
  if v ≤ 0 then 0 else if v ≥ (maxMemSize : Int) then maxMemSize else v.toNat

theorem SetInt_eq (v : Int) : SetInt v = .int (clamp16 v) := by
  unfold SetInt clamp16
  split
  · rfl
  · split <;> rfl

/-! Behaviour of the `readStr` payload loop and of the MEM_CPY loop. -/

theorem readStrLoop_ok {m : Nat → Nat} {ip : Nat} :
    ∀ (n i : Nat), ip + i + n ≤ maxMemSize + 1 →
      ∃ cs, readStrLoop m ip i n = .ok cs := by
  intro n
  induction n with
  | zero => exact fun i _ => ⟨[], rfl⟩
  | succ k IH =>
    intro i h
    obtain ⟨cs, hcs⟩ := IH (i + 1) (by omega)
    have hpos : 0 < maxMemSize := by decide
    by_cases he : ip + i = maxMemSize
    · refine ⟨Char.ofNat (m 0) :: cs, ?_⟩
      simp [readStrLoop, he, mRead_lt hpos, Outcome.bind, hcs]
    · have hlt : ip + i < maxMemSize := by omega
      refine ⟨Char.ofNat (m (ip + i)) :: cs, ?_⟩
      simp [readStrLoop, he, mRead_lt hlt, Outcome.bind, hcs]

theorem readStrLoop_fault {m : Nat → Nat} {ip : Nat} :
    ∀ (n i : Nat), 0 < n → ip + i + n > maxMemSize + 1 →
      readStrLoop m ip i n = .fault := by
  intro n
  induction n with
  | zero => intro i h0 h; omega
  | succ k IH =>
    intro i _ h
    by_cases hgt : ip + i > maxMemSize
    · have hne : ¬ ip + i = maxMemSize := by omega
      have hge : ¬ ip + i < maxMemSize := by omega
      simp [readStrLoop, hne, mRead_ge hge, Outcome.bind]
    · have hk := IH (i + 1) (by omega) (by omega)
      have hpos : 0 < maxMemSize := by decide
      by_cases he : ip + i = maxMemSize
      · simp [readStrLoop, he, mRead_lt hpos, Outcome.bind, hk]
      · have hlt : ip + i < maxMemSize := by omega
        simp [readStrLoop, he, mRead_lt hlt, Outcome.bind, hk]

theorem memCpyLoop_ok :
    ∀ (n : Nat) (m : Nat → Nat) (dstAddr srcAddr : Nat),
      ∃ m', memCpyLoop m dstAddr srcAddr n = .ok m' := by
  intro n
  induction n with
  | zero => exact fun m d s => ⟨m, rfl⟩
  | succ k IH =>
    intro m d s
    have hpos : 0 < maxMemSize := by decide
    by_cases hd : d ≥ maxMemSize <;> by_cases hs : s ≥ maxMemSize
    · obtain ⟨m', hm'⟩ := IH m 1 1
      exact ⟨m', by
        simp [memCpyLoop, hd, hs, mRead_lt hpos, mWrite, hpos,
          Outcome.bind, Function.update_eq_self, hm']⟩
    · have hslt : s < maxMemSize := by omega
      obtain ⟨m', hm'⟩ := IH (Function.update m 0 (m s)) 1 (s + 1)
      exact ⟨m', by
        simp [memCpyLoop, hd, hs, mRead_lt hslt, mWrite, hpos,
          Outcome.bind, hm']⟩
    · have hdlt : d < maxMemSize := by omega
      obtain ⟨m', hm'⟩ := IH (Function.update m d (m 0)) (d + 1) 1
      exact ⟨m', by
        simp [memCpyLoop, hd, hs, mRead_lt hpos, mWrite, hdlt,
          Outcome.bind, hm']⟩
    · have hdlt : d < maxMemSize := by omega
      have hslt : s < maxMemSize := by omega
      obtain ⟨m', hm'⟩ := IH (Function.update m d (m s)) (d + 1) (s + 1)
      exact ⟨m', by
        simp [memCpyLoop, hd, hs, mRead_lt hslt, mWrite, hdlt,
          Outcome.bind, hm']⟩

/-! Claim C1: what `Reset` initialises. -/

/-- A machine state left over by a previous run: the zero flag is set. -/
def cexC1 : CPU :=
  { regs := fun _ => .int 0, z := true, mem := fun _ => 0, ip := 5,
    stack := [7] }

/-- Claim C1, counterexample: `Reset` does not clear the zero flag, so a
state whose previous run left Z set still has Z set after `Reset`,
contradicting "the Z flag is cleared". -/
theorem C1_counterexample : (Reset cexC1).z ≠ false := by decide

/-- Claim C1, amended: after `Reset` (also performed at the start of every
`LoadBytes`) all 15 registers hold `Int(0)`, the instruction pointer is 0
and the stack is empty — but the Z flag keeps its prior value (and memory
is untouched); `Reset` never writes the flags. -/
theorem C1_reset_state (s : CPU) (data : List Nat) :
    (∀ i, i < numRegs → (Reset s).regs i = .int 0) ∧
    (Reset s).ip = 0 ∧ (Reset s).stack = [] ∧
    (Reset s).z = s.z ∧ (Reset s).mem = s.mem ∧
    (LoadBytes s data).z = s.z ∧ (LoadBytes s data).ip = 0 ∧
    (LoadBytes s data).stack = [] ∧
    (∀ i, i < numRegs → (LoadBytes s data).regs i = .int 0) :=
  ⟨fun _ _ => rfl, rfl, rfl, rfl, rfl, rfl, rfl, rfl, fun _ _ => rfl⟩

/-- Claim C1, witness for the amended theorem at a concrete state. -/
theorem C1_witness :
    (Reset cexC1).regs 3 = .int 0 ∧ (Reset cexC1).ip = 0 ∧
      (Reset cexC1).stack = [] ∧ (Reset cexC1).z = true :=
  ⟨(C1_reset_state cexC1 []).1 3 (by decide), (C1_reset_state cexC1 []).2.1,
    (C1_reset_state cexC1 []).2.2.1,
    ((C1_reset_state cexC1 []).2.2.2.1).trans rfl⟩

/-! Claim C2: wrap-around in `readStr` and MEM_CPY. -/

/-- Memory whose 16-bit length prefix at `0xfffc` declares 5 bytes. -/
def memC2 : Nat → Nat := fun i => if i = 0xfffc then 5 else 0

/-- Claim C2, counterexample: with the read cursor at `0xfffc` (inside
`[0, 0xffff)`) and declared length 5 (below `0xffff`), the length-prefixed
read faults: the wrap in the Go loop fires only when `tmpIP` is exactly
`0xffff`, so the cursor then runs past the array bound. -/
theorem C2_counterexample :
    readInt memC2 0xfffc = .ok (5, 0xfffe) ∧
      readStr memC2 0xfffc = .fault := by decide

/-- Claim C2, amended: the payload read completes exactly when it passes
the end of RAM by at most one position (`ip + n ≤ 0x10000`), the single
wrapped index being read at 0; a longer read faults.  The MEM_CPY loop, by
contrast, resets both cursors whenever they reach `0xffff` and never
faults, for every length. -/
theorem C2_wrap :
    (∀ (m : Nat → Nat) (ip n : Nat), ip + n ≤ maxMemSize + 1 →
        ∃ cs, readStrLoop m ip 0 n = .ok cs) ∧
    (∀ (m : Nat → Nat) (ip n : Nat), 0 < n → ip + n > maxMemSize + 1 →
        readStrLoop m ip 0 n = .fault) ∧
    (∀ (m : Nat → Nat) (dstAddr srcAddr n : Nat),
        ∃ m', memCpyLoop m dstAddr srcAddr n = .ok m') :=
  ⟨fun _ _ n h => readStrLoop_ok n 0 (by omega),
    fun _ _ n h0 h => readStrLoop_fault n 0 h0 (by omega),
    fun m d s n => memCpyLoop_ok n m d s⟩

/-- Claim C2, witness: concrete instances of all three parts. -/
theorem C2_witness :
    (∃ cs, readStrLoop memC2 0xfffe 0 2 = .ok cs) ∧
      readStrLoop memC2 0xfffe 0 3 = .fault ∧
      (∃ m', memCpyLoop memC2 0xfffe 0 4 = .ok m') :=
  ⟨C2_wrap.1 memC2 0xfffe 2 (by decide),
    C2_wrap.2.1 memC2 0xfffe 3 (by decide) (by decide),
    C2_wrap.2.2 memC2 0xfffe 0 4⟩

/-! Claim C3: the zero flag after SUB. -/

/-- SUB #0, #1, #2 with `#1 = 5`, `#2 = 2` and the zero flag already set. -/
def cexC3 : CPU :=
  { regs := fun j => if j = 1 then .int 5 else if j = 2 then .int 2
      else .int 0
    z := true
    mem := fun i => if i = 0 then 0x21 else if i = 2 then 1
      else if i = 3 then 2 else 0
    ip := 0
    stack := [] }

/-- Claim C3, counterexample: a SUB whose stored result is 3 (positive)
leaves the previously set zero flag set — the flag is not "cleared when
the result is > 0". -/
theorem C3_counterexample :
    cexC3.z = true ∧ stepRegInt World.quiet cexC3 0 = some 3 ∧
      stepZ World.quiet cexC3 = some true := by decide

/-- Claim C3, amended: after a successful SUB the zero flag is set when the
stored (clamped) result is 0 — i.e. when the subtraction gave ≤ 0 — and
keeps its prior value otherwise; SUB never clears the flag. -/
theorem C3_sub_flag (w : World) (s : CPU) (r : StepR)
    (hop : s.mem s.ip = 0x21) (h : step w s = .ok r) :
    ∃ v, r.cpu.regs (s.mem (s.ip + 1)) = .int v ∧
      r.cpu.z = (decide (v = 0) || s.z) ∧
      (s.z = true → r.cpu.z = true) := by
  have hip := step_ok_ip h
  have hc := step_ok_cancelled h
  rw [step_eq_stepOp hip hc, hop, stepOp_SUB] at h
  rw [noOut_eq_ok] at h
  obtain ⟨s', hs', rfl⟩ := h
  unfold execSUB at hs'
  simp only [Outcome.bind_eq, Outcome.bind_eq_ok, Outcome.pure_eq,
    readReg3_eq_ok, Outcome.ok.injEq] at hs'
  obtain ⟨⟨res, a, b⟩, ⟨hres, ha, hb⟩, av, hav, bv, hbv, rv, hrv, hfin⟩ :=
    hs'
  obtain ⟨_, hres2, _⟩ := readReg_eq_ok.mp hres
  rw [Function.update_same, SetInt_eq, GetInt_eq_ok] at hrv
  injection hrv with hrv
  subst hfin
  simp only [wrapIP_z, wrapIP_regs]
  refine ⟨rv, ?_, ?_, ?_⟩
  · rw [← hres2, Function.update_same, SetInt_eq, hrv]
  · by_cases hz : rv = 0
    · subst hz; simp
    · have hnz : ¬ rv ≤ 0 := by omega
      simp [hnz, hz]
  · intro hzs
    split
    · rfl
    · exact hzs

/-- Claim C3, witness: the amended theorem applied to the concrete SUB
state `cexC3`. -/
theorem C3_witness :
    ∃ r, step World.quiet cexC3 = Outcome.ok r ∧
      ∃ v, r.cpu.regs (cexC3.mem (cexC3.ip + 1)) = .int v ∧
        r.cpu.z = (decide (v = 0) || cexC3.z) := by
  obtain ⟨r, hr⟩ : ∃ r, step World.quiet cexC3 = Outcome.ok r := ⟨_, rfl⟩
  obtain ⟨v, h1, h2, _⟩ := C3_sub_flag World.quiet cexC3 r rfl hr
  exact ⟨r, hr, v, h1, h2⟩

/-! Claim C5: CMP_REG on every pair of register contents. -/

/-- CMP_REG #0, #1 where register 0 holds an Int and register 1 a Str. -/
def cexC5 : CPU :=
  { regs := fun j => if j = 0 then .int 0 else .str []
    z := false
    mem := fun i => if i = 0 then 0x42 else if i = 2 then 1 else 0
    ip := 0
    stack := [] }

/-- Claim C5, counterexample: CMP_REG with an Int in `r1` and a Str in
`r2` does not clear Z and continue — it returns the `GetInt`
type-mismatch error, aborting the run. -/
theorem C5_counterexample :
    stepErrOf World.quiet cexC5 = some .typeMismatch := by decide

/-- Claim C5, amended: CMP_REG succeeds exactly when both registers hold
the same variant, leaving Z set iff the values are equal; when the
variants differ it fails with a type-mismatch error (the case block
dispatches on `r1`'s variant and calls that variant's getter on `r2`). -/
theorem C5_cmp_reg (w : World) (s : CPU)
    (hc : w.cancelled = false) (hip : s.ip + 2 < maxMemSize)
    (hop : s.mem s.ip = 0x42)
    (h1 : s.mem (s.ip + 1) < numRegs) (h2 : s.mem (s.ip + 2) < numRegs) :
    (∀ a b, s.regs (s.mem (s.ip + 1)) = .int a →
        s.regs (s.mem (s.ip + 2)) = .int b →
        step w s =
          .ok ⟨false, { s with z := decide (a = b), ip := s.ip + 3 }, []⟩) ∧
    (∀ a b, s.regs (s.mem (s.ip + 1)) = .str a →
        s.regs (s.mem (s.ip + 2)) = .str b →
        step w s =
          .ok ⟨false, { s with z := decide (a = b), ip := s.ip + 3 }, []⟩) ∧
    (∀ a b, s.regs (s.mem (s.ip + 1)) = .int a →
        s.regs (s.mem (s.ip + 2)) = .str b →
        step w s = .err .typeMismatch) ∧
    (∀ a b, s.regs (s.mem (s.ip + 1)) = .str a →
        s.regs (s.mem (s.ip + 2)) = .int b →
        step w s = .err .typeMismatch) := by
  have hbase : step w s = noOut (execCMP_REG s) := by
    rw [step_eq_stepOp (by omega) hc, hop, stepOp_CMP_REG]
  have r1eq : readReg s.mem (s.ip + 1) = .ok (s.mem (s.ip + 1)) := by
    rw [readReg_eq (by omega), if_neg (by omega)]
  have r2eq : readReg s.mem (s.ip + 2) = .ok (s.mem (s.ip + 2)) := by
    rw [readReg_eq (by omega), if_neg (by omega)]
  have hwrap : ∀ z' : Bool,
      wrapIP { s with z := z', ip := s.ip + 3 } =
        { s with z := z', ip := s.ip + 3 } := by
    intro z'
    exact wrapIP_of_le (by simp; omega)
  refine ⟨?_, ?_, ?_, ?_⟩
  · intro a b hA hB
    rw [hbase]
    unfold execCMP_REG
    rw [r1eq]
    simp only [Outcome.bind_eq, Outcome.bind_ok]
    rw [r2eq]
    simp only [Outcome.bind_eq, Outcome.bind_ok]
    rw [hA, hB]
    simp only [GetInt, Outcome.bind_eq, Outcome.bind_ok, Outcome.pure_eq,
      noOut, hwrap]
  · intro a b hA hB
    rw [hbase]
    unfold execCMP_REG
    rw [r1eq]
    simp only [Outcome.bind_eq, Outcome.bind_ok]
    rw [r2eq]
    simp only [Outcome.bind_eq, Outcome.bind_ok]
    rw [hA, hB]
    simp only [GetStr, Outcome.bind_eq, Outcome.bind_ok, Outcome.pure_eq,
      noOut, hwrap]
  · intro a b hA hB
    rw [hbase]
    unfold execCMP_REG
    rw [r1eq]
    simp only [Outcome.bind_eq, Outcome.bind_ok]
    rw [r2eq]
    simp only [Outcome.bind_eq, Outcome.bind_ok]
    rw [hA, hB]
    simp only [GetInt, Outcome.bind_eq, Outcome.bind_err, noOut]
  · intro a b hA hB
    rw [hbase]
    unfold execCMP_REG
    rw [r1eq]
    simp only [Outcome.bind_eq, Outcome.bind_ok]
    rw [r2eq]
    simp only [Outcome.bind_eq, Outcome.bind_ok]
    rw [hA, hB]
    simp only [GetStr, Outcome.bind_eq, Outcome.bind_err, noOut]

/-- Claim C5, witness: the amended theorem applied to `cexC5` (mixed
variants) decides the concrete error. -/
theorem C5_witness : step World.quiet cexC5 = .err .typeMismatch :=
  (C5_cmp_reg World.quiet cexC5 rfl (by decide) rfl (by decide)
      (by decide)).2.2.1 0 [] rfl rfl

/-! Claim C8: POKE's bound checks and the byte cast. -/

/-- POKE #0, #1 with `#0 = Int 300` (the value) and `#1 = Int 7` (the
address). -/
def cexC8 : CPU :=
  { regs := fun j => if j = 0 then .int 300 else if j = 1 then .int 7
      else .int 0
    z := false
    mem := fun i => if i = 0 then 0x61 else if i = 2 then 1 else 0
    ip := 0
    stack := [] }

/-- Claim C8, counterexample: POKE with value 300 (accepted by the
`< 0xffff` check) stores `byte(300) = 44`, not 300 — the memory byte does
not become `v` for `256 ≤ v < 0xffff`. -/
theorem C8_counterexample :
    stepMem World.quiet cexC8 7 = some 44 ∧ (44 : Nat) ≠ 300 := by decide

/-- Claim C8, amended: POKE fails exactly when the value is `≥ 0xffff`,
the address is `≥ 0xffff`, or one of the two registers holds a Str; on
success the byte at the address becomes `v mod 256` (the Go `byte(val)`
cast) and no other memory byte changes. -/
theorem C8_poke (w : World) (s : CPU)
    (hc : w.cancelled = false) (hip : s.ip + 2 < maxMemSize)
    (hop : s.mem s.ip = 0x61)
    (h1 : s.mem (s.ip + 1) < numRegs) (h2 : s.mem (s.ip + 2) < numRegs) :
    (∀ v a, s.regs (s.mem (s.ip + 1)) = .int v →
        s.regs (s.mem (s.ip + 2)) = .int a →
        v < maxMemSize → a < maxMemSize →
        step w s = .ok ⟨false,
          { s with mem := Function.update s.mem a (v % 256),
                   ip := s.ip + 2 }, []⟩) ∧
    (∀ v, s.regs (s.mem (s.ip + 1)) = .int v → v ≥ maxMemSize →
        step w s = .err (.valOOR v)) ∧
    (∀ v a, s.regs (s.mem (s.ip + 1)) = .int v →
        s.regs (s.mem (s.ip + 2)) = .int a →
        v < maxMemSize → a ≥ maxMemSize →
        step w s = .err (.addrOOR a)) ∧
    (∀ x, s.regs (s.mem (s.ip + 1)) = .str x →
        step w s = .err .typeMismatch) ∧
    (∀ v x, s.regs (s.mem (s.ip + 1)) = .int v → v < maxMemSize →
        s.regs (s.mem (s.ip + 2)) = .str x →
        step w s = .err .typeMismatch) := by
  have hbase : step w s = noOut (execPOKE s) := by
    rw [step_eq_stepOp (by omega) hc, hop, stepOp_POKE]
  have r1eq : readReg s.mem (s.ip + 1) = .ok (s.mem (s.ip + 1)) := by
    rw [readReg_eq (by omega), if_neg (by omega)]
  have r2eq : readReg s.mem (s.ip + 2) = .ok (s.mem (s.ip + 2)) := by
    rw [readReg_eq (by omega), if_neg (by omega)]
  refine ⟨?_, ?_, ?_, ?_, ?_⟩
  · intro v a hV hA hv ha
    rw [hbase]
    unfold execPOKE
    rw [r1eq]
    simp only [Outcome.bind_eq, Outcome.bind_ok]
    rw [r2eq]
    simp only [Outcome.bind_eq, Outcome.bind_ok]
    rw [hV, hA]
    simp only [GetInt, Outcome.bind_eq, Outcome.bind_ok]
    rw [if_neg (by omega), if_neg (by omega)]
    unfold mWrite
    rw [if_pos ha]
    simp only [Outcome.bind_eq, Outcome.bind_ok, Outcome.pure_eq, noOut]
    rw [wrapIP_of_le (by simp; omega)]
  · intro v hV hv
    rw [hbase]
    unfold execPOKE
    rw [r1eq]
    simp only [Outcome.bind_eq, Outcome.bind_ok]
    rw [r2eq]
    simp only [Outcome.bind_eq, Outcome.bind_ok]
    rw [hV]
    simp only [GetInt, Outcome.bind_eq, Outcome.bind_ok]
    rw [if_pos hv]
    simp [noOut, Outcome.bind]
  · intro v a hV hA hv ha
    rw [hbase]
    unfold execPOKE
    rw [r1eq]
    simp only [Outcome.bind_eq, Outcome.bind_ok]
    rw [r2eq]
    simp only [Outcome.bind_eq, Outcome.bind_ok]
    rw [hV, hA]
    simp only [GetInt, Outcome.bind_eq, Outcome.bind_ok]
    rw [if_neg (by omega), if_pos ha]
    simp [noOut, Outcome.bind]
  · intro x hX
    rw [hbase]
    unfold execPOKE
    rw [r1eq]
    simp only [Outcome.bind_eq, Outcome.bind_ok]
    rw [r2eq]
    simp only [Outcome.bind_eq, Outcome.bind_ok]
    rw [hX]
    simp [GetInt, noOut, Outcome.bind]
  · intro v x hV hv hX
    rw [hbase]
    unfold execPOKE
    rw [r1eq]
    simp only [Outcome.bind_eq, Outcome.bind_ok]
    rw [r2eq]
    simp only [Outcome.bind_eq, Outcome.bind_ok]
    rw [hV, hX]
    simp only [GetInt, Outcome.bind_eq, Outcome.bind_ok]
    rw [if_neg (by omega)]
    simp [GetStr, noOut, Outcome.bind]

/-- Claim C8, witness: the amended success case applied to `cexC8`
(value 300 stored at address 7 as the byte 44). -/
theorem C8_witness :
    step World.quiet cexC8 = .ok ⟨false,
      { cexC8 with mem := Function.update cexC8.mem 7 (300 % 256),
                   ip := cexC8.ip + 2 }, []⟩ :=
  (C8_poke World.quiet cexC8 rfl (by decide) rfl (by decide)
      (by decide)).1 300 7 rfl rfl (by decide) (by decide)

/-! Zero-flag frame lemmas: every opcode case other than SUB, INC, DEC,
CMP_INT, CMP_STR, CMP_REG, IS_INT and IS_STR leaves `flags.z` alone. -/

theorem execINT_STORE_z {s s' : CPU} (h : execINT_STORE s = .ok s') :
    s'.z = s.z := by
  unfold execINT_STORE at h
  simp only [Outcome.bind_eq, Outcome.bind_eq_ok, Outcome.pure_eq,
    Outcome.ok.injEq] at h
  obtain ⟨reg, _, ⟨val, ip'⟩, _, hfin⟩ := h
  subst hfin
  rfl

theorem execINT_PRINT_z {s : CPU} {p : CPU × List Char}
    (h : execINT_PRINT s = .ok p) : p.1.z = s.z := by
  unfold execINT_PRINT at h
  simp only [Outcome.bind_eq, Outcome.bind_eq_ok, Outcome.pure_eq,
    Outcome.ok.injEq] at h
  obtain ⟨reg, _, val, _, hfin⟩ := h
  subst hfin
  rfl

theorem execINT_TO_STR_z {s s' : CPU} (h : execINT_TO_STR s = .ok s') :
    s'.z = s.z := by
  unfold execINT_TO_STR at h
  simp only [Outcome.bind_eq, Outcome.bind_eq_ok, Outcome.pure_eq,
    Outcome.ok.injEq] at h
  obtain ⟨reg, _, i, _, hfin⟩ := h
  subst hfin
  rfl

theorem execINT_RAND_z {w : World} {s s' : CPU}
    (h : execINT_RAND w s = .ok s') : s'.z = s.z := by
  unfold execINT_RAND at h
  simp only [Outcome.bind_eq, Outcome.bind_eq_ok, Outcome.pure_eq,
    Outcome.ok.injEq] at h
  obtain ⟨reg, _, hfin⟩ := h
  subst hfin
  rfl

theorem execJMP_z_frame {s s' : CPU} (h : execJMP s = .ok s') :
    s'.z = s.z := by
  unfold execJMP at h
  simp only [Outcome.bind_eq, Outcome.bind_eq_ok, Outcome.pure_eq,
    Outcome.ok.injEq] at h
  obtain ⟨⟨addr, ip'⟩, _, hfin⟩ := h
  subst hfin
  rfl

theorem execJMP_Z_z_frame {s s' : CPU} (h : execJMP_Z s = .ok s') :
    s'.z = s.z := by
  unfold execJMP_Z at h
  simp only [Outcome.bind_eq, Outcome.bind_eq_ok, Outcome.pure_eq,
    Outcome.ok.injEq] at h
  obtain ⟨⟨addr, ip'⟩, _, hfin⟩ := h
  subst hfin
  rfl

theorem execJMP_NZ_z_frame {s s' : CPU} (h : execJMP_NZ s = .ok s') :
    s'.z = s.z := by
  unfold execJMP_NZ at h
  simp only [Outcome.bind_eq, Outcome.bind_eq_ok, Outcome.pure_eq,
    Outcome.ok.injEq] at h
  obtain ⟨⟨addr, ip'⟩, _, hfin⟩ := h
  subst hfin
  rfl

theorem execADD_z {s s' : CPU} (h : execADD s = .ok s') : s'.z = s.z := by
  unfold execADD at h
  simp only [Outcome.bind_eq, Outcome.bind_eq_ok, Outcome.pure_eq,
    Outcome.ok.injEq] at h
  obtain ⟨⟨res, a, b⟩, _, av, _, bv, _, hfin⟩ := h
  subst hfin
  rfl

theorem execMUL_z {s s' : CPU} (h : execMUL s = .ok s') : s'.z = s.z := by
  unfold execMUL at h
  simp only [Outcome.bind_eq, Outcome.bind_eq_ok, Outcome.pure_eq,
    Outcome.ok.injEq] at h
  obtain ⟨⟨res, a, b⟩, _, av, _, bv, _, hfin⟩ := h
  subst hfin
  rfl

theorem execDIV_z {s s' : CPU} (h : execDIV s = .ok s') : s'.z = s.z := by
  unfold execDIV at h
  simp only [Outcome.bind_eq, Outcome.bind_eq_ok, Outcome.pure_eq,
    Outcome.ok.injEq] at h
  obtain ⟨⟨res, a, b⟩, _, av, _, bv, _, hfin⟩ := h
  split at hfin
  · cases hfin
  · simp only [Outcome.ok.injEq] at hfin
    subst hfin
    rfl

theorem execAND_z {s s' : CPU} (h : execAND s = .ok s') : s'.z = s.z := by
  unfold execAND at h
  simp only [Outcome.bind_eq, Outcome.bind_eq_ok, Outcome.pure_eq,
    Outcome.ok.injEq] at h
  obtain ⟨⟨res, a, b⟩, _, av, _, bv, _, hfin⟩ := h
  subst hfin
  rfl

theorem execOR_z {s s' : CPU} (h : execOR s = .ok s') : s'.z = s.z := by
  unfold execOR at h
  simp only [Outcome.bind_eq, Outcome.bind_eq_ok, Outcome.pure_eq,
    Outcome.ok.injEq] at h
  obtain ⟨⟨res, a, b⟩, _, av, _, bv, _, hfin⟩ := h
  subst hfin
  rfl

theorem execXOR_z {s s' : CPU} (h : execXOR s = .ok s') : s'.z = s.z := by
  unfold execXOR at h
  simp only [Outcome.bind_eq, Outcome.bind_eq_ok, Outcome.pure_eq,
    Outcome.ok.injEq] at h
  obtain ⟨⟨res, a, b⟩, _, av, _, bv, _, hfin⟩ := h
  subst hfin
  rfl

theorem execSTR_STORE_z {s s' : CPU} (h : execSTR_STORE s = .ok s') :
    s'.z = s.z := by
  unfold execSTR_STORE at h
  simp only [Outcome.bind_eq, Outcome.bind_eq_ok, Outcome.pure_eq,
    Outcome.ok.injEq] at h
  obtain ⟨reg, _, ⟨str, ip'⟩, _, hfin⟩ := h
  subst hfin
  rfl

theorem execSTR_PRINT_z {s : CPU} {p : CPU × List Char}
    (h : execSTR_PRINT s = .ok p) : p.1.z = s.z := by
  unfold execSTR_PRINT at h
  simp only [Outcome.bind_eq, Outcome.bind_eq_ok, Outcome.pure_eq,
    Outcome.ok.injEq] at h
  obtain ⟨reg, _, str, _, hfin⟩ := h
  subst hfin
  rfl

theorem execCONCAT_z {s s' : CPU} (h : execCONCAT s = .ok s') :
    s'.z = s.z := by
  unfold execCONCAT at h
  simp only [Outcome.bind_eq, Outcome.bind_eq_ok, Outcome.pure_eq,
    Outcome.ok.injEq] at h
  obtain ⟨⟨res, a, b⟩, _, av, _, bv, _, hfin⟩ := h
  subst hfin
  rfl

theorem execSYSTEM_z {w : World} {s : CPU} {p : CPU × List Char}
    (h : execSYSTEM w s = .ok p) : p.1.z = s.z := by
  unfold execSYSTEM at h
  simp only [Outcome.bind_eq, Outcome.bind_eq_ok, Outcome.pure_eq,
    Outcome.ok.injEq] at h
  obtain ⟨reg, _, str, _, hfin⟩ := h
  rcases hsys : w.sysResult str with _ | out
  all_goals rw [hsys] at hfin
  · cases hfin
  · simp only [Outcome.ok.injEq] at hfin
    subst hfin
    rfl

theorem execSTR_TO_INT_z {s s' : CPU} (h : execSTR_TO_INT s = .ok s') :
    s'.z = s.z := by
  unfold execSTR_TO_INT at h
  simp only [Outcome.bind_eq, Outcome.bind_eq_ok, Outcome.pure_eq,
    Outcome.ok.injEq] at h
  obtain ⟨reg, _, str, _, hfin⟩ := h
  rcases hA : Atoi str with _ | i
  all_goals rw [hA] at hfin
  · cases hfin
  · simp only [Outcome.ok.injEq] at hfin
    subst hfin
    rfl

theorem execREG_STORE_z {s s' : CPU} (h : execREG_STORE s = .ok s') :
    s'.z = s.z := by
  unfold execREG_STORE at h
  simp only [Outcome.bind_eq, Outcome.bind_eq_ok, Outcome.pure_eq,
    Outcome.ok.injEq] at h
  obtain ⟨dst, _, src, _, hfin⟩ := h
  rcases hsrc : s.regs src with v | v
  all_goals rw [hsrc] at hfin
  all_goals
    simp only [Outcome.ok.injEq] at hfin
    subst hfin
    rfl

theorem execPEEK_z {s s' : CPU} (h : execPEEK s = .ok s') :
    s'.z = s.z := by
  unfold execPEEK at h
  simp only [Outcome.bind_eq, Outcome.bind_eq_ok, Outcome.pure_eq,
    Outcome.ok.injEq] at h
  obtain ⟨r1, _, r2, _, addr, _, hfin⟩ := h
  split at hfin
  · cases hfin
  · simp only [Outcome.bind_eq, Outcome.bind_eq_ok, Outcome.pure_eq,
      Outcome.ok.injEq] at hfin
    obtain ⟨b, _, hfin⟩ := hfin
    subst hfin
    rfl

theorem execPOKE_z {s s' : CPU} (h : execPOKE s = .ok s') :
    s'.z = s.z := by
  unfold execPOKE at h
  simp only [Outcome.bind_eq, Outcome.bind_eq_ok, Outcome.pure_eq,
    Outcome.ok.injEq] at h
  obtain ⟨r1, _, r2, _, val, _, hfin⟩ := h
  split at hfin
  · cases hfin
  · simp only [Outcome.bind_eq, Outcome.bind_eq_ok, Outcome.pure_eq,
      Outcome.ok.injEq] at hfin
    obtain ⟨addr, _, hfin⟩ := hfin
    split at hfin
    · cases hfin
    · simp only [Outcome.bind_eq, Outcome.bind_eq_ok, Outcome.pure_eq,
        Outcome.ok.injEq] at hfin
      obtain ⟨m', _, hfin⟩ := hfin
      subst hfin
      rfl

theorem execMEM_CPY_z {s s' : CPU} (h : execMEM_CPY s = .ok s') :
    s'.z = s.z := by
  unfold execMEM_CPY at h
  simp only [Outcome.bind_eq, Outcome.bind_eq_ok, Outcome.pure_eq,
    Outcome.ok.injEq] at h
  obtain ⟨⟨dst, src, lng⟩, _, da, _, sa, _, ln, _, m', _, hfin⟩ := h
  subst hfin
  rfl

theorem execPUSH_z {s s' : CPU} (h : execPUSH s = .ok s') :
    s'.z = s.z := by
  unfold execPUSH at h
  simp only [Outcome.bind_eq, Outcome.bind_eq_ok, Outcome.pure_eq,
    Outcome.ok.injEq] at h
  obtain ⟨reg, _, val, _, hfin⟩ := h
  subst hfin
  rfl

theorem execPOP_z {s s' : CPU} (h : execPOP s = .ok s') :
    s'.z = s.z := by
  unfold execPOP at h
  simp only [Outcome.bind_eq, Outcome.bind_eq_ok, Outcome.pure_eq,
    Outcome.ok.injEq] at h
  obtain ⟨reg, _, hfin⟩ := h
  rcases hst : s.stack with _ | ⟨val, rest⟩
  all_goals rw [hst] at hfin
  · cases hfin
  · simp only [Outcome.ok.injEq] at hfin
    subst hfin
    rfl

theorem execCALL_z {s s' : CPU} (h : execCALL s = .ok s') :
    s'.z = s.z := by
  unfold execCALL at h
  simp only [Outcome.bind_eq, Outcome.bind_eq_ok, Outcome.pure_eq,
    Outcome.ok.injEq] at h
  obtain ⟨⟨addr, ip'⟩, _, hfin⟩ := h
  subst hfin
  rfl

theorem execRET_z {s s' : CPU} (h : execRET s = .ok s') :
    s'.z = s.z := by
  unfold execRET at h
  rcases hst : s.stack with _ | ⟨addr, rest⟩
  all_goals rw [hst] at h
  · cases h
  · simp only [Outcome.ok.injEq] at h
    subst h
    rfl

theorem runTrap_z {w : World} {n : Nat} {t t' : CPU}
    (h : runTrap w n t = .ok t') : t'.z = t.z := by
  unfold runTrap at h
  match n with
  | 0 =>
    simp only [Outcome.bind_eq, Outcome.bind_eq_ok, Outcome.pure_eq,
      Outcome.ok.injEq] at h
    obtain ⟨str, _, hfin⟩ := h
    subst hfin
    rfl
  | 1 =>
    rcases hin : w.stdinLine with _ | l
    all_goals rw [hin] at h
    · cases h
    · simp only [Outcome.ok.injEq] at h
      subst h
      rfl
  | 2 =>
    simp only [Outcome.bind_eq, Outcome.bind_eq_ok, Outcome.pure_eq,
      Outcome.ok.injEq] at h
    obtain ⟨str, _, hfin⟩ := h
    subst hfin
    rfl
  | (k + 3) => cases h

theorem execTRAP_z {w : World} {s s' : CPU} (h : execTRAP w s = .ok s') :
    s'.z = s.z := by
  unfold execTRAP at h
  simp only [Outcome.bind_eq, Outcome.bind_eq_ok, Outcome.pure_eq,
    Outcome.ok.injEq] at h
  obtain ⟨⟨num, ip'⟩, _, hfin⟩ := h
  split at hfin
  · cases hfin
  · have hz := runTrap_z hfin
    exact hz

/-! Claim C4: which instructions write the zero flag. -/

/-- IS_INT #0 on a freshly reset register file with Z clear. -/
def cexC4 : CPU :=
  { regs := fun _ => .int 0
    z := false
    mem := fun i => if i = 0 then 0x43 else 0
    ip := 0
    stack := [] }

/-- Claim C4, counterexample: IS_INT is not among DEC, INC, SUB and the
three comparisons, yet it sets Z (here from false to true). -/
theorem C4_counterexample :
    cexC4.mem cexC4.ip ∉ ([0x21, 0x24, 0x25, 0x40, 0x41, 0x42] : List Nat) ∧
      cexC4.z = false ∧ stepZ World.quiet cexC4 = some true := by decide

/-- Claim C4, amended: every successfully executing instruction other than
SUB, INC, DEC, CMP_INT, CMP_STR, CMP_REG — and additionally IS_INT and
IS_STR, which also write Z — leaves the zero flag unchanged. -/
theorem C4_z_frame (w : World) (s : CPU) (r : StepR)
    (h : step w s = .ok r)
    (hop : s.mem s.ip ∉
      ([0x21, 0x24, 0x25, 0x40, 0x41, 0x42, 0x43, 0x44] : List Nat)) :
    r.cpu.z = s.z := by
  have hip := step_ok_ip h
  have hc := step_ok_cancelled h
  rw [step_eq_stepOp hip hc] at h
  by_cases hk : s.mem s.ip ∈ knownOps
  · simp only [knownOps, List.mem_cons, List.not_mem_nil, or_false] at hk
    rcases hk with hk | hk | hk | hk | hk | hk | hk | hk | hk | hk | hk |
      hk | hk | hk | hk | hk | hk | hk | hk | hk | hk | hk | hk | hk | hk |
      hk | hk | hk | hk | hk | hk | hk | hk | hk | hk | hk | hk
    · rw [hk, stepOp_EXIT] at h
      cases h
      simp
    · rw [hk, stepOp_INT_STORE, noOut_eq_ok] at h
      obtain ⟨s', hs', rfl⟩ := h
      simpa using execINT_STORE_z hs'
    · rw [hk, stepOp_INT_PRINT, withOut_eq_ok] at h
      obtain ⟨p, hp, rfl⟩ := h
      simpa using execINT_PRINT_z hp
    · rw [hk, stepOp_INT_TO_STR, noOut_eq_ok] at h
      obtain ⟨s', hs', rfl⟩ := h
      simpa using execINT_TO_STR_z hs'
    · rw [hk, stepOp_INT_RAND, noOut_eq_ok] at h
      obtain ⟨s', hs', rfl⟩ := h
      simpa using execINT_RAND_z hs'
    · rw [hk, stepOp_JMP, noOut_eq_ok] at h
      obtain ⟨s', hs', rfl⟩ := h
      simpa using execJMP_z_frame hs'
    · rw [hk, stepOp_JMP_Z, noOut_eq_ok] at h
      obtain ⟨s', hs', rfl⟩ := h
      simpa using execJMP_Z_z_frame hs'
    · rw [hk, stepOp_JMP_NZ, noOut_eq_ok] at h
      obtain ⟨s', hs', rfl⟩ := h
      simpa using execJMP_NZ_z_frame hs'
    · rw [hk, stepOp_ADD, noOut_eq_ok] at h
      obtain ⟨s', hs', rfl⟩ := h
      simpa using execADD_z hs'
    · exact absurd (by rw [hk]; decide) hop
    · rw [hk, stepOp_MUL, noOut_eq_ok] at h
      obtain ⟨s', hs', rfl⟩ := h
      simpa using execMUL_z hs'
    · rw [hk, stepOp_DIV, noOut_eq_ok] at h
      obtain ⟨s', hs', rfl⟩ := h
      simpa using execDIV_z hs'
    · exact absurd (by rw [hk]; decide) hop
    · exact absurd (by rw [hk]; decide) hop
    · rw [hk, stepOp_AND, noOut_eq_ok] at h
      obtain ⟨s', hs', rfl⟩ := h
      simpa using execAND_z hs'
    · rw [hk, stepOp_OR, noOut_eq_ok] at h
      obtain ⟨s', hs', rfl⟩ := h
      simpa using execOR_z hs'
    · rw [hk, stepOp_XOR, noOut_eq_ok] at h
      obtain ⟨s', hs', rfl⟩ := h
      simpa using execXOR_z hs'
    · rw [hk, stepOp_STR_STORE, noOut_eq_ok] at h
      obtain ⟨s', hs', rfl⟩ := h
      simpa using execSTR_STORE_z hs'
    · rw [hk, stepOp_STR_PRINT, withOut_eq_ok] at h
      obtain ⟨p, hp, rfl⟩ := h
      simpa using execSTR_PRINT_z hp
    · rw [hk, stepOp_CONCAT, noOut_eq_ok] at h
      obtain ⟨s', hs', rfl⟩ := h
      simpa using execCONCAT_z hs'
    · rw [hk, stepOp_SYSTEM, withOut_eq_ok] at h
      obtain ⟨p, hp, rfl⟩ := h
      simpa using execSYSTEM_z hp
    · rw [hk, stepOp_STR_TO_INT, noOut_eq_ok] at h
      obtain ⟨s', hs', rfl⟩ := h
      simpa using execSTR_TO_INT_z hs'
    · exact absurd (by rw [hk]; decide) hop
    · exact absurd (by rw [hk]; decide) hop
    · exact absurd (by rw [hk]; decide) hop
    · exact absurd (by rw [hk]; decide) hop
    · exact absurd (by rw [hk]; decide) hop
    · rw [hk, stepOp_NOP, noOut_eq_ok] at h
      obtain ⟨s', hs', rfl⟩ := h
      cases hs'
      simp
    · rw [hk, stepOp_REG_STORE, noOut_eq_ok] at h
      obtain ⟨s', hs', rfl⟩ := h
      simpa using execREG_STORE_z hs'
    · rw [hk, stepOp_PEEK, noOut_eq_ok] at h
      obtain ⟨s', hs', rfl⟩ := h
      simpa using execPEEK_z hs'
    · rw [hk, stepOp_POKE, noOut_eq_ok] at h
      obtain ⟨s', hs', rfl⟩ := h
      simpa using execPOKE_z hs'
    · rw [hk, stepOp_MEM_CPY, noOut_eq_ok] at h
      obtain ⟨s', hs', rfl⟩ := h
      simpa using execMEM_CPY_z hs'
    · rw [hk, stepOp_PUSH, noOut_eq_ok] at h
      obtain ⟨s', hs', rfl⟩ := h
      simpa using execPUSH_z hs'
    · rw [hk, stepOp_POP, noOut_eq_ok] at h
      obtain ⟨s', hs', rfl⟩ := h
      simpa using execPOP_z hs'
    · rw [hk, stepOp_CALL, noOut_eq_ok] at h
      obtain ⟨s', hs', rfl⟩ := h
      simpa using execCALL_z hs'
    · rw [hk, stepOp_RET, noOut_eq_ok] at h
      obtain ⟨s', hs', rfl⟩ := h
      simpa using execRET_z hs'
    · rw [hk, stepOp_TRAP, noOut_eq_ok] at h
      obtain ⟨s', hs', rfl⟩ := h
      simpa using execTRAP_z hs'
  · rw [stepOp_unknown w s hk] at h
    cases h

/-- A NOP step with the zero flag set, for the witness. -/
def wC4 : CPU :=
  { regs := fun _ => .int 0
    z := true
    mem := fun i => if i = 0 then 0x50 else 0
    ip := 0
    stack := [] }

/-- Claim C4, witness: the amended frame theorem applied to a concrete
NOP execution. -/
theorem C4_witness : ∃ r, step World.quiet wC4 = .ok r ∧ r.cpu.z = wC4.z := by
  obtain ⟨r, hr⟩ : ∃ r, step World.quiet wC4 = .ok r := ⟨_, rfl⟩
  exact ⟨r, hr, C4_z_frame World.quiet wC4 r hr (by decide)⟩

/-! Fault-freedom lemmas: under which operand bounds each opcode case
stays inside the memory array. -/

theorem mWrite_ne_fault {m : Nat → Nat} {i v : Nat} (h : i < maxMemSize) :
    mWrite m i v ≠ .fault := by
  unfold mWrite
  rw [if_pos h]
  simp

/-- The condition under which a length-prefixed string read at cursor `p`
stays inside the array: either the declared length is rejected by the
`≥ 0xffff` check, or the payload (starting at `p + 2`) passes the end of
RAM by at most one position. -/
def strFits (m : Nat → Nat) (p : Nat) : Bool :=
  decide (m p + m (p + 1) * 256 ≥ maxMemSize) ||
    decide (p + 2 + (m p + m (p + 1) * 256) ≤ maxMemSize + 1)

theorem readStr_ne_fault {m : Nat → Nat} {p : Nat} (h : p + 1 < maxMemSize)
    (hstr : strFits m p = true) : readStr m p ≠ .fault := by
  unfold readStr
  rw [readInt_eq h]
  simp only [Outcome.bind_eq, Outcome.bind_ok]
  unfold strFits at hstr
  simp only [Bool.or_eq_true, decide_eq_true_eq] at hstr
  split
  · simp
  · rename_i hlen
    rcases hstr with hge | hle
    · omega
    · obtain ⟨cs, hcs⟩ :=
        @readStrLoop_ok m (p + 2) (m p + m (p + 1) * 256) 0 (by omega)
      rw [hcs]
      simp [Outcome.bind]

theorem execINT_STORE_nf {s : CPU} (h : s.ip + 3 < maxMemSize) :
    execINT_STORE s ≠ .fault := by
  unfold execINT_STORE
  simp only [Outcome.bind_eq]
  refine Outcome.bind_ne_fault (readReg_ne_fault (by omega)) ?_
  intro reg _
  refine Outcome.bind_ne_fault (readInt_ne_fault (by omega)) ?_
  intro p _
  cases p
  simp

theorem execINT_PRINT_nf {s : CPU} (h : s.ip + 1 < maxMemSize) :
    execINT_PRINT s ≠ .fault := by
  unfold execINT_PRINT
  simp only [Outcome.bind_eq]
  refine Outcome.bind_ne_fault (readReg_ne_fault (by omega)) ?_
  intro reg _
  refine Outcome.bind_ne_fault (GetInt_ne_fault _) ?_
  intro v _
  simp

theorem execINT_TO_STR_nf {s : CPU} (h : s.ip + 1 < maxMemSize) :
    execINT_TO_STR s ≠ .fault := by
  unfold execINT_TO_STR
  simp only [Outcome.bind_eq]
  refine Outcome.bind_ne_fault (readReg_ne_fault (by omega)) ?_
  intro reg _
  refine Outcome.bind_ne_fault (GetInt_ne_fault _) ?_
  intro v _
  simp

theorem execINT_RAND_nf {w : World} {s : CPU} (h : s.ip + 1 < maxMemSize) :
    execINT_RAND w s ≠ .fault := by
  unfold execINT_RAND
  simp only [Outcome.bind_eq]
  refine Outcome.bind_ne_fault (readReg_ne_fault (by omega)) ?_
  intro reg _
  simp

theorem execJMP_nf {s : CPU} (h : s.ip + 2 < maxMemSize) :
    execJMP s ≠ .fault := by
  unfold execJMP
  simp only [Outcome.bind_eq]
  refine Outcome.bind_ne_fault (readInt_ne_fault (by omega)) ?_
  intro p _
  cases p
  simp

theorem execJMP_Z_nf {s : CPU} (h : s.ip + 2 < maxMemSize) :
    execJMP_Z s ≠ .fault := by
  unfold execJMP_Z
  simp only [Outcome.bind_eq]
  refine Outcome.bind_ne_fault (readInt_ne_fault (by omega)) ?_
  intro p _
  cases p
  simp

theorem execJMP_NZ_nf {s : CPU} (h : s.ip + 2 < maxMemSize) :
    execJMP_NZ s ≠ .fault := by
  unfold execJMP_NZ
  simp only [Outcome.bind_eq]
  refine Outcome.bind_ne_fault (readInt_ne_fault (by omega)) ?_
  intro p _
  cases p
  simp

theorem execADD_nf {s : CPU} (h : s.ip + 3 < maxMemSize) :
    execADD s ≠ .fault := by
  unfold execADD
  simp only [Outcome.bind_eq]
  refine Outcome.bind_ne_fault (readReg3_ne_fault (by omega)) ?_
  rintro ⟨res, a, b⟩ _
  refine Outcome.bind_ne_fault (GetInt_ne_fault _) ?_
  intro av _
  refine Outcome.bind_ne_fault (GetInt_ne_fault _) ?_
  intro bv _
  simp

theorem execSUB_nf {s : CPU} (h : s.ip + 3 < maxMemSize) :
    execSUB s ≠ .fault := by
  unfold execSUB
  simp only [Outcome.bind_eq]
  refine Outcome.bind_ne_fault (readReg3_ne_fault (by omega)) ?_
  rintro ⟨res, a, b⟩ _
  refine Outcome.bind_ne_fault (GetInt_ne_fault _) ?_
  intro av _
  refine Outcome.bind_ne_fault (GetInt_ne_fault _) ?_
  intro bv _
  refine Outcome.bind_ne_fault (GetInt_ne_fault _) ?_
  intro rv _
  simp

theorem execMUL_nf {s : CPU} (h : s.ip + 3 < maxMemSize) :
    execMUL s ≠ .fault := by
  unfold execMUL
  simp only [Outcome.bind_eq]
  refine Outcome.bind_ne_fault (readReg3_ne_fault (by omega)) ?_
  rintro ⟨res, a, b⟩ _
  refine Outcome.bind_ne_fault (GetInt_ne_fault _) ?_
  intro av _
  refine Outcome.bind_ne_fault (GetInt_ne_fault _) ?_
  intro bv _
  simp

theorem execDIV_nf {s : CPU} (h : s.ip + 3 < maxMemSize) :
    execDIV s ≠ .fault := by
  unfold execDIV
  simp only [Outcome.bind_eq]
  refine Outcome.bind_ne_fault (readReg3_ne_fault (by omega)) ?_
  rintro ⟨res, a, b⟩ _
  refine Outcome.bind_ne_fault (GetInt_ne_fault _) ?_
  intro av _
  refine Outcome.bind_ne_fault (GetInt_ne_fault _) ?_
  intro bv _
  split <;> simp

theorem execINC_nf {s : CPU} (h : s.ip + 1 < maxMemSize) :
    execINC s ≠ .fault := by
  unfold execINC
  simp only [Outcome.bind_eq]
  refine Outcome.bind_ne_fault (readReg_ne_fault (by omega)) ?_
  intro reg _
  refine Outcome.bind_ne_fault (GetInt_ne_fault _) ?_
  intro v _
  simp

theorem execDEC_nf {s : CPU} (h : s.ip + 1 < maxMemSize) :
    execDEC s ≠ .fault := by
  unfold execDEC
  simp only [Outcome.bind_eq]
  refine Outcome.bind_ne_fault (readReg_ne_fault (by omega)) ?_
  intro reg _
  refine Outcome.bind_ne_fault (GetInt_ne_fault _) ?_
  intro v _
  simp

theorem execAND_nf {s : CPU} (h : s.ip + 3 < maxMemSize) :
    execAND s ≠ .fault := by
  unfold execAND
  simp only [Outcome.bind_eq]
  refine Outcome.bind_ne_fault (readReg3_ne_fault (by omega)) ?_
  rintro ⟨res, a, b⟩ _
  refine Outcome.bind_ne_fault (GetInt_ne_fault _) ?_
  intro av _
  refine Outcome.bind_ne_fault (GetInt_ne_fault _) ?_
  intro bv _
  simp

theorem execOR_nf {s : CPU} (h : s.ip + 3 < maxMemSize) :
    execOR s ≠ .fault := by
  unfold execOR
  simp only [Outcome.bind_eq]
  refine Outcome.bind_ne_fault (readReg3_ne_fault (by omega)) ?_
  rintro ⟨res, a, b⟩ _
  refine Outcome.bind_ne_fault (GetInt_ne_fault _) ?_
  intro av _
  refine Outcome.bind_ne_fault (GetInt_ne_fault _) ?_
  intro bv _
  simp

theorem execXOR_nf {s : CPU} (h : s.ip + 3 < maxMemSize) :
    execXOR s ≠ .fault := by
  unfold execXOR
  simp only [Outcome.bind_eq]
  refine Outcome.bind_ne_fault (readReg3_ne_fault (by omega)) ?_
  rintro ⟨res, a, b⟩ _
  refine Outcome.bind_ne_fault (GetInt_ne_fault _) ?_
  intro av _
  refine Outcome.bind_ne_fault (GetInt_ne_fault _) ?_
  intro bv _
  simp

theorem execSTR_STORE_nf {s : CPU} (h : s.ip + 3 < maxMemSize)
    (hstr : strFits s.mem (s.ip + 2) = true) :
    execSTR_STORE s ≠ .fault := by
  unfold execSTR_STORE
  simp only [Outcome.bind_eq]
  refine Outcome.bind_ne_fault (readReg_ne_fault (by omega)) ?_
  intro reg _
  refine Outcome.bind_ne_fault (readStr_ne_fault (by omega) hstr) ?_
  intro p _
  cases p
  simp

theorem execSTR_PRINT_nf {s : CPU} (h : s.ip + 1 < maxMemSize) :
    execSTR_PRINT s ≠ .fault := by
  unfold execSTR_PRINT
  simp only [Outcome.bind_eq]
  refine Outcome.bind_ne_fault (readReg_ne_fault (by omega)) ?_
  intro reg _
  refine Outcome.bind_ne_fault (GetStr_ne_fault _) ?_
  intro str _
  simp

theorem execCONCAT_nf {s : CPU} (h : s.ip + 3 < maxMemSize) :
    execCONCAT s ≠ .fault := by
  unfold execCONCAT
  simp only [Outcome.bind_eq]
  refine Outcome.bind_ne_fault (readReg3_ne_fault (by omega)) ?_
  rintro ⟨res, a, b⟩ _
  refine Outcome.bind_ne_fault (GetStr_ne_fault _) ?_
  intro av _
  refine Outcome.bind_ne_fault (GetStr_ne_fault _) ?_
  intro bv _
  simp

theorem execSYSTEM_nf {w : World} {s : CPU} (h : s.ip + 1 < maxMemSize) :
    execSYSTEM w s ≠ .fault := by
  unfold execSYSTEM
  simp only [Outcome.bind_eq]
  refine Outcome.bind_ne_fault (readReg_ne_fault (by omega)) ?_
  intro reg _
  refine Outcome.bind_ne_fault (GetStr_ne_fault _) ?_
  intro str _
  rcases w.sysResult str <;> simp

theorem execSTR_TO_INT_nf {s : CPU} (h : s.ip + 1 < maxMemSize) :
    execSTR_TO_INT s ≠ .fault := by
  unfold execSTR_TO_INT
  simp only [Outcome.bind_eq]
  refine Outcome.bind_ne_fault (readReg_ne_fault (by omega)) ?_
  intro reg _
  refine Outcome.bind_ne_fault (GetStr_ne_fault _) ?_
  intro str _
  rcases Atoi str <;> simp

theorem execCMP_INT_nf {s : CPU} (h : s.ip + 3 < maxMemSize) :
    execCMP_INT s ≠ .fault := by
  unfold execCMP_INT
  simp only [Outcome.bind_eq]
  refine Outcome.bind_ne_fault (readReg_ne_fault (by omega)) ?_
  intro reg _
  refine Outcome.bind_ne_fault (readInt_ne_fault (by omega)) ?_
  intro p _
  cases p
  simp

theorem execCMP_STR_nf {s : CPU} (h : s.ip + 3 < maxMemSize)
    (hstr : strFits s.mem (s.ip + 2) = true) :
    execCMP_STR s ≠ .fault := by
  unfold execCMP_STR
  simp only [Outcome.bind_eq]
  refine Outcome.bind_ne_fault (readReg_ne_fault (by omega)) ?_
  intro reg _
  refine Outcome.bind_ne_fault (readStr_ne_fault (by omega) hstr) ?_
  intro p _
  cases p
  simp

theorem execCMP_REG_nf {s : CPU} (h : s.ip + 2 < maxMemSize) :
    execCMP_REG s ≠ .fault := by
  unfold execCMP_REG
  simp only [Outcome.bind_eq]
  refine Outcome.bind_ne_fault (readReg_ne_fault (by omega)) ?_
  intro r1 _
  refine Outcome.bind_ne_fault (readReg_ne_fault (by omega)) ?_
  intro r2 _
  rcases s.regs r1 with a | a
  · refine Outcome.bind_ne_fault (GetInt_ne_fault _) ?_
    intro b _
    simp
  · refine Outcome.bind_ne_fault (GetStr_ne_fault _) ?_
    intro b _
    simp

theorem execIS_INT_nf {s : CPU} (h : s.ip + 1 < maxMemSize) :
    execIS_INT s ≠ .fault := by
  unfold execIS_INT
  simp only [Outcome.bind_eq]
  refine Outcome.bind_ne_fault (readReg_ne_fault (by omega)) ?_
  intro reg _
  simp

theorem execIS_STR_nf {s : CPU} (h : s.ip + 1 < maxMemSize) :
    execIS_STR s ≠ .fault := by
  unfold execIS_STR
  simp only [Outcome.bind_eq]
  refine Outcome.bind_ne_fault (readReg_ne_fault (by omega)) ?_
  intro reg _
  simp

theorem execREG_STORE_nf {s : CPU} (h : s.ip + 2 < maxMemSize) :
    execREG_STORE s ≠ .fault := by
  unfold execREG_STORE
  simp only [Outcome.bind_eq]
  refine Outcome.bind_ne_fault (readReg_ne_fault (by omega)) ?_
  intro dst _
  refine Outcome.bind_ne_fault (readReg_ne_fault (by omega)) ?_
  intro src _
  rcases s.regs src <;> simp

theorem execPEEK_nf {s : CPU} (h : s.ip + 2 < maxMemSize) :
    execPEEK s ≠ .fault := by
  unfold execPEEK
  simp only [Outcome.bind_eq]
  refine Outcome.bind_ne_fault (readReg_ne_fault (by omega)) ?_
  intro r1 _
  refine Outcome.bind_ne_fault (readReg_ne_fault (by omega)) ?_
  intro r2 _
  refine Outcome.bind_ne_fault (GetInt_ne_fault _) ?_
  intro addr _
  split
  · simp
  · rename_i haddr
    refine Outcome.bind_ne_fault (by rw [mRead_lt (by omega)]; simp) ?_
    intro b _
    simp

theorem execPOKE_nf {s : CPU} (h : s.ip + 2 < maxMemSize) :
    execPOKE s ≠ .fault := by
  unfold execPOKE
  simp only [Outcome.bind_eq]
  refine Outcome.bind_ne_fault (readReg_ne_fault (by omega)) ?_
  intro r1 _
  refine Outcome.bind_ne_fault (readReg_ne_fault (by omega)) ?_
  intro r2 _
  refine Outcome.bind_ne_fault (GetInt_ne_fault _) ?_
  intro val _
  split
  · simp
  · refine Outcome.bind_ne_fault (GetInt_ne_fault _) ?_
    intro addr _
    split
    · simp
    · rename_i haddr
      refine Outcome.bind_ne_fault (mWrite_ne_fault (by omega)) ?_
      intro m' _
      simp

theorem execMEM_CPY_nf {s : CPU} (h : s.ip + 3 < maxMemSize) :
    execMEM_CPY s ≠ .fault := by
  unfold execMEM_CPY
  simp only [Outcome.bind_eq]
  refine Outcome.bind_ne_fault (readReg3_ne_fault (by omega)) ?_
  rintro ⟨dst, src, lng⟩ _
  refine Outcome.bind_ne_fault (GetInt_ne_fault _) ?_
  intro da _
  refine Outcome.bind_ne_fault (GetInt_ne_fault _) ?_
  intro sa _
  refine Outcome.bind_ne_fault (GetInt_ne_fault _) ?_
  intro ln _
  obtain ⟨m', hm'⟩ := memCpyLoop_ok ln s.mem da sa
  refine Outcome.bind_ne_fault (by rw [hm']; simp) ?_
  intro mm _
  simp

theorem execPUSH_nf {s : CPU} (h : s.ip + 1 < maxMemSize) :
    execPUSH s ≠ .fault := by
  unfold execPUSH
  simp only [Outcome.bind_eq]
  refine Outcome.bind_ne_fault (readReg_ne_fault (by omega)) ?_
  intro reg _
  refine Outcome.bind_ne_fault (GetInt_ne_fault _) ?_
  intro v _
  simp

theorem execPOP_nf {s : CPU} (h : s.ip + 1 < maxMemSize) :
    execPOP s ≠ .fault := by
  unfold execPOP
  simp only [Outcome.bind_eq]
  refine Outcome.bind_ne_fault (readReg_ne_fault (by omega)) ?_
  intro reg _
  rcases s.stack <;> simp

theorem execCALL_nf {s : CPU} (h : s.ip + 2 < maxMemSize) :
    execCALL s ≠ .fault := by
  unfold execCALL
  simp only [Outcome.bind_eq]
  refine Outcome.bind_ne_fault (readInt_ne_fault (by omega)) ?_
  intro p _
  cases p
  simp

theorem execRET_nf {s : CPU} : execRET s ≠ .fault := by
  unfold execRET
  rcases s.stack <;> simp

theorem runTrap_nf {w : World} {n : Nat} {t : CPU} :
    runTrap w n t ≠ .fault := by
  unfold runTrap
  match n with
  | 0 =>
    simp only [Outcome.bind_eq]
    refine Outcome.bind_ne_fault (GetStr_ne_fault _) ?_
    intro str _
    simp
  | 1 => rcases w.stdinLine <;> simp
  | 2 =>
    simp only [Outcome.bind_eq]
    refine Outcome.bind_ne_fault (GetStr_ne_fault _) ?_
    intro str _
    simp
  | (k + 3) => simp

theorem execTRAP_nf {w : World} {s : CPU} (h : s.ip + 2 < maxMemSize) :
    execTRAP w s ≠ .fault := by
  unfold execTRAP
  simp only [Outcome.bind_eq]
  refine Outcome.bind_ne_fault (readInt_ne_fault (by omega)) ?_
  intro p _
  cases p
  split
  · simp
  · exact runTrap_nf

/-! Claim C10: what one decode-dispatch step may touch. -/

/-- Operand-footprint condition, read off the reads each case performs:
no operand (EXIT, NOP, RET), one register byte, one 16-bit immediate, up
to three operand bytes, or a register byte plus a length-prefixed string.
Unknown opcodes read nothing. -/
def instrFits (s : CPU) : Bool :=
  let op := s.mem s.ip
  if op = 0x00 ∨ op = 0x50 ∨ op = 0x73 then true
  else if op = 0x02 ∨ op = 0x03 ∨ op = 0x04 ∨ op = 0x24 ∨ op = 0x25 ∨
      op = 0x31 ∨ op = 0x33 ∨ op = 0x34 ∨ op = 0x43 ∨ op = 0x44 ∨
      op = 0x70 ∨ op = 0x71 then decide (s.ip + 1 < maxMemSize)
  else if op = 0x10 ∨ op = 0x11 ∨ op = 0x12 ∨ op = 0x42 ∨ op = 0x51 ∨
      op = 0x60 ∨ op = 0x61 ∨ op = 0x72 ∨ op = 0x80 then
    decide (s.ip + 2 < maxMemSize)
  else if op = 0x01 ∨ op = 0x20 ∨ op = 0x21 ∨ op = 0x22 ∨ op = 0x23 ∨
      op = 0x26 ∨ op = 0x27 ∨ op = 0x28 ∨ op = 0x32 ∨ op = 0x40 ∨
      op = 0x62 then decide (s.ip + 3 < maxMemSize)
  else if op = 0x30 ∨ op = 0x41 then
    decide (s.ip + 3 < maxMemSize) && strFits s.mem (s.ip + 2)
  else true

/-- INT_STORE with its opcode byte at the last RAM address `0xfffe`. -/
def cexC10 : CPU :=
  { regs := fun _ => .int 0
    z := false
    mem := fun i => if i = 0xfffe then 0x01 else 0
    ip := 0xfffe
    stack := [] }

/-- Claim C10, counterexample: with the instruction pointer passing the
top-of-loop check (`0xfffe < 0xffff`), decoding the INT_STORE register
operand reads `mem[0xffff]`, one past the array — a runtime fault, not a
returned error. -/
theorem C10_counterexample :
    cexC10.ip < maxMemSize ∧ stepFaults World.quiet cexC10 = true := by
  decide

/-- Claim C10, amended: a step whose instruction pointer passes the fetch
check touches memory only at indices `0..0xfffe` and surfaces every
failure as a returned error — provided the instruction's operand bytes
(and any length-prefixed string payload) also lie inside the array, as
expressed by `instrFits`; an instruction whose operand decoding would
reach index `0xffff` (e.g. a multi-byte opcode at `0xfffe`) panics
instead. -/
theorem C10_no_fault (w : World) (s : CPU) (hip : s.ip < maxMemSize)
    (hfits : instrFits s = true) : step w s ≠ .fault := by
  unfold step
  rw [if_neg (by omega)]
  split
  · simp
  · by_cases hk : s.mem s.ip ∈ knownOps
    · simp only [knownOps, List.mem_cons, List.not_mem_nil, or_false] at hk
      unfold instrFits at hfits
      rcases hk with hk | hk | hk | hk | hk | hk | hk | hk | hk | hk | hk |
        hk | hk | hk | hk | hk | hk | hk | hk | hk | hk | hk | hk | hk |
        hk | hk | hk | hk | hk | hk | hk | hk | hk | hk | hk | hk | hk <;>
        rw [hk] at hfits ⊢ <;> norm_num at hfits
      · rw [stepOp_EXIT]; simp
      · rw [stepOp_INT_STORE]
        exact noOut_ne_fault (execINT_STORE_nf hfits)
      · rw [stepOp_INT_PRINT]
        exact withOut_ne_fault (execINT_PRINT_nf hfits)
      · rw [stepOp_INT_TO_STR]
        exact noOut_ne_fault (execINT_TO_STR_nf hfits)
      · rw [stepOp_INT_RAND]
        exact noOut_ne_fault (execINT_RAND_nf hfits)
      · rw [stepOp_JMP]
        exact noOut_ne_fault (execJMP_nf hfits)
      · rw [stepOp_JMP_Z]
        exact noOut_ne_fault (execJMP_Z_nf hfits)
      · rw [stepOp_JMP_NZ]
        exact noOut_ne_fault (execJMP_NZ_nf hfits)
      · rw [stepOp_ADD]
        exact noOut_ne_fault (execADD_nf hfits)
      · rw [stepOp_SUB]
        exact noOut_ne_fault (execSUB_nf hfits)
      · rw [stepOp_MUL]
        exact noOut_ne_fault (execMUL_nf hfits)
      · rw [stepOp_DIV]
        exact noOut_ne_fault (execDIV_nf hfits)
      · rw [stepOp_INC]
        exact noOut_ne_fault (execINC_nf hfits)
      · rw [stepOp_DEC]
        exact noOut_ne_fault (execDEC_nf hfits)
      · rw [stepOp_AND]
        exact noOut_ne_fault (execAND_nf hfits)
      · rw [stepOp_OR]
        exact noOut_ne_fault (execOR_nf hfits)
      · rw [stepOp_XOR]
        exact noOut_ne_fault (execXOR_nf hfits)
      · rw [stepOp_STR_STORE]
        exact noOut_ne_fault (execSTR_STORE_nf hfits.1 hfits.2)
      · rw [stepOp_STR_PRINT]
        exact withOut_ne_fault (execSTR_PRINT_nf hfits)
      · rw [stepOp_CONCAT]
        exact noOut_ne_fault (execCONCAT_nf hfits)
      · rw [stepOp_SYSTEM]
        exact withOut_ne_fault (execSYSTEM_nf hfits)
      · rw [stepOp_STR_TO_INT]
        exact noOut_ne_fault (execSTR_TO_INT_nf hfits)
      · rw [stepOp_CMP_INT]
        exact noOut_ne_fault (execCMP_INT_nf hfits)
      · rw [stepOp_CMP_STR]
        exact noOut_ne_fault (execCMP_STR_nf hfits.1 hfits.2)
      · rw [stepOp_CMP_REG]
        exact noOut_ne_fault (execCMP_REG_nf hfits)
      · rw [stepOp_IS_INT]
        exact noOut_ne_fault (execIS_INT_nf hfits)
      · rw [stepOp_IS_STR]
        exact noOut_ne_fault (execIS_STR_nf hfits)
      · rw [stepOp_NOP]
        exact noOut_ne_fault (by simp)
      · rw [stepOp_REG_STORE]
        exact noOut_ne_fault (execREG_STORE_nf hfits)
      · rw [stepOp_PEEK]
        exact noOut_ne_fault (execPEEK_nf hfits)
      · rw [stepOp_POKE]
        exact noOut_ne_fault (execPOKE_nf hfits)
      · rw [stepOp_MEM_CPY]
        exact noOut_ne_fault (execMEM_CPY_nf hfits)
      · rw [stepOp_PUSH]
        exact noOut_ne_fault (execPUSH_nf hfits)
      · rw [stepOp_POP]
        exact noOut_ne_fault (execPOP_nf hfits)
      · rw [stepOp_CALL]
        exact noOut_ne_fault (execCALL_nf hfits)
      · rw [stepOp_RET]
        exact noOut_ne_fault execRET_nf
      · rw [stepOp_TRAP]
        exact noOut_ne_fault (execTRAP_nf hfits)
    · rw [stepOp_unknown w s hk]
      simp

/-- STR_STORE #0 with a two-byte payload, fitting entirely in RAM. -/
def wC10 : CPU :=
  { regs := fun _ => .int 0
    z := false
    mem := fun i => if i = 0 then 0x30 else if i = 2 then 2 else 0
    ip := 0
    stack := [] }

/-- Claim C10, witness: the amended theorem applied to a concrete
string-store instruction whose footprint fits. -/
theorem C10_witness : step World.quiet wC10 ≠ .fault :=
  C10_no_fault World.quiet wC10 (by decide) (by decide)

/-! Claim C9: INT_STORE followed by INT_PRINT. -/

theorem hexCharsCore_length :
    ∀ (fuel : Nat) (n : Nat) (acc : List Char) (k : Nat), 0 < k →
      k ≤ fuel → n < 16 ^ k →
      (hexCharsCore fuel n acc).length ≤ k + acc.length := by
  intro fuel
  induction fuel with
  | zero => intro n acc k hk hf _; omega
  | succ f IH =>
    intro n acc k hk hf hn
    by_cases hsm : n < 16
    · simp only [hexCharsCore, hsm, if_pos]
      simp only [List.length_cons]
      omega
    · simp only [hexCharsCore, hsm, if_neg, if_false]
      have hk2 : 2 ≤ k := by
        by_contra hlt
        have hk1 : k = 1 := by omega
        subst hk1
        rw [pow_one] at hn
        omega
      have hpow : 16 ^ k = 16 ^ (k - 1) * 16 := by
        have hke : k = (k - 1) + 1 := by omega
        nth_rewrite 1 [hke]
        rw [pow_succ]
      have hdiv : n / 16 < 16 ^ (k - 1) :=
        Nat.div_lt_of_lt_mul (by omega)
      have hrec := IH (n / 16) (hexDigitChar (n % 16) :: acc) (k - 1)
        (by omega) (by omega) hdiv
      simp only [List.length_cons] at hrec
      omega

theorem hexChars_length_le {n k : Nat} (hk : 0 < k) (hn : n < 16 ^ k) :
    (hexChars n).length ≤ k := by
  by_cases hkn : k ≤ n + 1
  · have h := hexCharsCore_length (n + 1) n [] k hk hkn hn
    simpa [hexChars] using h
  · have hn2 : n < 16 ^ (n + 1) := by
      calc n < 2 ^ n := Nat.lt_two_pow n
        _ ≤ 16 ^ n := Nat.pow_le_pow_left (by omega) n
        _ ≤ 16 ^ (n + 1) := Nat.pow_le_pow_right (by omega) (by omega)
    have h := hexCharsCore_length (n + 1) n [] (n + 1) (by omega)
      (by omega) hn2
    have he : hexChars n = hexCharsCore (n + 1) n [] := rfl
    rw [he]
    simp only [List.length_nil] at h
    omega

theorem padHex_length {w n : Nat} (h : (hexChars n).length ≤ w) :
    (padHex w n).length = w := by
  simp only [padHex, List.length_append, List.length_replicate]
  omega

/-- Sanity: the formatter produces the familiar strings. -/
theorem hexChars_examples :
    hexChars 0 = ['0'] ∧ hexChars 255 = ['f', 'f'] ∧
      hexChars 256 = ['1', '0', '0'] ∧
      hexChars 0xffff = ['f', 'f', 'f', 'f'] ∧
      padHex 2 5 = ['0', '5'] ∧ padHex 4 256 = ['0', '1', '0', '0'] := by
  decide

/-- The claim's `clamp(imm, 0, 0xffff)` on a natural immediate. -/
def clampNat (n : Nat) : Nat := clamp16 (Nat.cast n)

theorem clamp16_le (v : Int) : clamp16 v ≤ maxMemSize := by
  unfold clamp16
  split
  · omega
  · split
    · omega
    · rename_i h1 h2
      omega

/-- The machine state after `INT_STORE r, imm` executes from `s`. -/
def afterStore (s : CPU) (r imm : Nat) : CPU :=
  { s with regs := Function.update s.regs r (SetInt (imm : Nat)),
           ip := s.ip + 4 }

/-- Claim C9: executing `INT_STORE r, imm` then `INT_PRINT r` writes the
lowercase hexadecimal form of `clamp(imm, 0, 0xffff)`, zero-padded to
exactly 2 hex digits when the clamped value is below 256 and to exactly 4
otherwise.  The immediate decoded from the two operand bytes is
`lo + hi*256`. -/
theorem C9_store_print (w₁ w₂ : World) (s : CPU) (r lo hi : Nat)
    (hc1 : w₁.cancelled = false) (hc2 : w₂.cancelled = false)
    (hip : s.ip + 5 < maxMemSize) (hr : r < numRegs)
    (h0 : s.mem s.ip = 0x01) (h1 : s.mem (s.ip + 1) = r)
    (h2 : s.mem (s.ip + 2) = lo) (h3 : s.mem (s.ip + 3) = hi)
    (h4 : s.mem (s.ip + 4) = 0x02) (h5 : s.mem (s.ip + 5) = r) :
    ∃ r₁ r₂, step w₁ s = .ok r₁ ∧ step w₂ r₁.cpu = .ok r₂ ∧
      r₁.out = [] ∧
      r₂.out = padHex (if clampNat (lo + hi * 256) < 256 then 2 else 4)
        (clampNat (lo + hi * 256)) ∧
      r₂.out.length =
        if clampNat (lo + hi * 256) < 256 then 2 else 4 := by
  have hreg1 : readReg s.mem (s.ip + 1) = .ok r := by
    rw [readReg_eq (by omega), h1, if_neg (by omega)]
  have hint : readInt s.mem (s.ip + 2) = .ok (lo + hi * 256, s.ip + 4) := by
    rw [readInt_eq (by omega), h2, h3]
  have hexec1 : execINT_STORE s = .ok (afterStore s r (lo + hi * 256)) := by
    unfold execINT_STORE afterStore
    rw [hreg1]
    simp only [Outcome.bind_eq, Outcome.bind_ok]
    rw [hint]
    simp only [Outcome.bind_eq, Outcome.bind_ok, Outcome.pure_eq]
  have h1ip : (afterStore s r (lo + hi * 256)).ip = s.ip + 4 := rfl
  have h1mem : (afterStore s r (lo + hi * 256)).mem = s.mem := rfl
  have hstep1 : step w₁ s = .ok ⟨false, afterStore s r (lo + hi * 256), []⟩ := by
    rw [step_eq_stepOp (by omega) hc1, h0, stepOp_INT_STORE, hexec1]
    simp only [noOut, Outcome.bind_ok]
    rw [wrapIP_of_le (by rw [h1ip]; omega)]
  have hreg2 : readReg (afterStore s r (lo + hi * 256)).mem
      ((afterStore s r (lo + hi * 256)).ip + 1) = .ok r := by
    rw [h1mem, h1ip]
    have he : s.ip + 4 + 1 = s.ip + 5 := rfl
    rw [he, readReg_eq (by omega), h5, if_neg (by omega)]
  have hget : GetInt ((afterStore s r (lo + hi * 256)).regs r) =
      .ok (clampNat (lo + hi * 256)) := by
    unfold afterStore
    simp only [Function.update_same, SetInt_eq, GetInt]
    rfl
  have hexec2 : execINT_PRINT (afterStore s r (lo + hi * 256)) = .ok
      ({ afterStore s r (lo + hi * 256) with
          ip := (afterStore s r (lo + hi * 256)).ip + 2 },
        if clampNat (lo + hi * 256) < 256 then
          padHex 2 (clampNat (lo + hi * 256))
        else padHex 4 (clampNat (lo + hi * 256))) := by
    unfold execINT_PRINT
    rw [hreg2]
    simp only [Outcome.bind_eq, Outcome.bind_ok]
    rw [hget]
    simp only [Outcome.bind_eq, Outcome.bind_ok, Outcome.pure_eq]
  have hstep2 : step w₂ (afterStore s r (lo + hi * 256)) = .ok
      ⟨false, { afterStore s r (lo + hi * 256) with
          ip := (afterStore s r (lo + hi * 256)).ip + 2 },
        if clampNat (lo + hi * 256) < 256 then
          padHex 2 (clampNat (lo + hi * 256))
        else padHex 4 (clampNat (lo + hi * 256))⟩ := by
    rw [step_eq_stepOp (by rw [h1ip]; omega) hc2]
    rw [show (afterStore s r (lo + hi * 256)).mem
        (afterStore s r (lo + hi * 256)).ip = 0x02 by
      rw [h1mem, h1ip]; exact h4]
    rw [stepOp_INT_PRINT, hexec2]
    simp only [withOut, Outcome.bind_ok]
    rw [wrapIP_of_le (by
      show (afterStore s r (lo + hi * 256)).ip + 2 ≤ maxMemSize
      rw [h1ip]; omega)]
  refine ⟨⟨false, afterStore s r (lo + hi * 256), []⟩, _, hstep1, hstep2,
    rfl, ?_, ?_⟩
  · by_cases hvs : clampNat (lo + hi * 256) < 256 <;> simp [hvs]
  · have hvmax : clampNat (lo + hi * 256) ≤ maxMemSize := clamp16_le _
    by_cases hvs : clampNat (lo + hi * 256) < 256
    · simp only [hvs, if_pos]
      refine padHex_length (hexChars_length_le (by omega) ?_)
      have h162 : (16 : Nat) ^ 2 = 256 := by norm_num
      omega
    · simp only [hvs, if_neg, if_false]
      refine padHex_length (hexChars_length_le (by omega) ?_)
      have h164 : (16 : Nat) ^ 4 = 65536 := by norm_num
      unfold maxMemSize at hvmax
      omega

/-- The program `INT_STORE #1, 0x0100; INT_PRINT #1` in memory. -/
def wC9 : CPU :=
  { regs := fun _ => .int 0
    z := false
    mem := fun i => if i = 0 then 1 else if i = 1 then 1
      else if i = 3 then 1 else if i = 4 then 2 else if i = 5 then 1 else 0
    ip := 0
    stack := [] }

/-- Claim C9, witness: the pipeline at a concrete program
`INT_STORE #1, 0x0100; INT_PRINT #1`, whose output is "0100". -/
theorem C9_witness :
    ∃ r₁ r₂, step World.quiet wC9 = .ok r₁ ∧
      step World.quiet r₁.cpu = .ok r₂ ∧ r₁.out = [] ∧
      r₂.out = padHex (if clampNat (0 + 1 * 256) < 256 then 2 else 4)
        (clampNat (0 + 1 * 256)) ∧
      r₂.out.length = if clampNat (0 + 1 * 256) < 256 then 2 else 4 :=
  C9_store_print World.quiet World.quiet wC9 1 0 1 rfl rfl (by decide)
    (by decide) rfl rfl rfl rfl rfl rfl

/-! The compiler (`compiler` package): token stream, two-token lookahead,
byte buffer, the `labels` and `fixups` maps, the per-mnemonic emitters and
the back-patch pass at the end of `Compile`.  The Go maps are modelled as
association lists: `labels` with newest binding first (so a redefined
label resolves to its last definition, as a map overwrite does) and
`fixups` in recording order (the Go map's iteration order is arbitrary,
but the patches write disjoint byte pairs, so any order gives the same
bytes).  `os.Exit` sites and the `panic` in `getRegister` end compilation
with `Except.error`. -/

/-- Token kinds (`token` package). -/
inductive TokKind where
  | COMMA | STR | LABEL | EOF | INT | ILLEGAL | IDENT
  | ADD | SUB | MUL | DIV | INC | DEC | AND | OR | XOR
  | CALL | RET | JMP | JMP_Z | JMP_NZ
  | PUSH | POP
  | IS_INT | IS_STR | INT_TO_STR | STR_TO_INT
  | CMP | STORE | PRINT_INT | PRINT_STR
  | PEEK | POKE
  | CONCAT | DATA | DB | EXIT | MEM_CPY | NOP | RAND | SYSTEM | TRAP
  deriving DecidableEq, Repr

/-- A lexer token: a kind and its literal. -/
structure Token where
  typ : TokKind
  literal : String
  deriving DecidableEq, Repr

/-- Process-aborting compiler failures: `nextError`'s unexpected token,
the register-literal bound check, the `panic` on a non-numeric register,
and the two `os.Exit` default cases of `cmpOp` / `storeOp`. -/
inductive CompErr where
  | expectedToken (want got : TokKind)
  | regOutOfBounds (lit : String)
  | regNotNumber (lit : String)
  | invalidCmp (got : TokKind)
  | invalidStore (got : TokKind)
  deriving DecidableEq, Repr

/-- The `Compiler` struct: the pending lexer stream (the lexer is pulled
one token at a time; an exhausted stream yields EOF tokens forever), the
two-token lookahead, the byte buffer and the two label tables. -/
structure Compiler where
  tokens : List Token
  token : Token
  peekToken : Token
  bytecode : List Nat
  labels : List (String × Nat)
  fixups : List (Nat × String)
  deriving DecidableEq, Repr

/-- The token an exhausted lexer returns forever. -/
def EOFTok : Token := ⟨.EOF, ""⟩

/-- `nextToken`: shift the lookahead window. -/
def nextToken (c : Compiler) : Compiler :=
  { c with token := c.peekToken,
           peekToken := (c.tokens.head?).getD EOFTok,
           tokens := c.tokens.tail }

/-- `New`: prime the pump with two `nextToken` calls. -/
def CompilerNew (ts : List Token) : Compiler :=
  nextToken (nextToken ⟨ts, EOFTok, EOFTok, [], [], []⟩)

/-- `isNextToken`. -/
def isNextToken (c : Compiler) (t : TokKind) : Bool :=
  decide (c.peekToken.typ = t)

/-- `checkNextToken`: advance when the lookahead matches, otherwise
`nextError` aborts the process. -/
def checkNextToken (t : TokKind) (c : Compiler) : Except CompErr Compiler :=
  if c.peekToken.typ = t then .ok (nextToken c)
  else .error (.expectedToken t c.peekToken.typ)

/-- Append bytes to the buffer. -/
def emit (c : Compiler) (bs : List Nat) : Compiler :=
  { c with bytecode := c.bytecode ++ bs }

/-- `strings.TrimPrefix(s, "#")`. -/
def dropHash (s : String) : String :=
  match s.data with
  | '#' :: rest => ⟨rest⟩
  | _ => s

/-- `strings.TrimPrefix(s, ":")`. -/
def dropColon (s : String) : String :=
  match s.data with
  | ':' :: rest => ⟨rest⟩
  | _ => s

/-- `isRegister`. -/
def isRegister (input : String) : Bool :=
  match input.data with
  | '#' :: _ => true
  | _ => false

/-- `getRegister`: strip `#`, `strconv.Atoi` (failure panics), and accept
only `0 ≤ i ≤ 15`. -/
def getRegister (input : String) : Except CompErr Nat :=
  match Atoi (dropHash input).data with
  | none => .error (.regNotNumber input)
  | some i =>
    if 0 ≤ i ∧ i ≤ 15 then .ok i.toNat
    else .error (.regOutOfBounds input)

/-- One digit in base `b` (`strconv` accepts `0-9`, `a-z`, `A-Z`). -/
def digitInBase (b : Nat) (ch : Char) : Option Nat :=
  let v :=
    if 48 ≤ ch.toNat ∧ ch.toNat ≤ 57 then some (ch.toNat - 48)
    else if 97 ≤ ch.toNat ∧ ch.toNat ≤ 122 then some (ch.toNat - 87)
    else if 65 ≤ ch.toNat ∧ ch.toNat ≤ 90 then some (ch.toNat - 55)
    else none
  match v with
  | some d => if d < b then some d else none
  | none => none

def baseValCore (b : Nat) : List Char → Nat → Option Nat
  | [], acc => some acc
  | ch :: rest, acc =>
    match digitInBase b ch with
    | some d => baseValCore b rest (acc * b + d)
    | none => none

def baseVal (b : Nat) : List Char → Option Nat
  | [] => none
  | ds => baseValCore b ds 0

/-- Magnitude part of `strconv.ParseInt(s, 0, 64)`: `0x`/`0X` hex,
`0b`/`0o` prefixes, a leading `0` meaning octal, else decimal.  (Digit
group underscores and the 64-bit range check are not modelled; no operand
this compiler parses uses them.) -/
def parseMag : List Char → Option Nat
  | [] => none
  | ['0'] => some 0
  | '0' :: 'x' :: rest => baseVal 16 rest
  | '0' :: 'X' :: rest => baseVal 16 rest
  | '0' :: 'b' :: rest => baseVal 2 rest
  | '0' :: 'B' :: rest => baseVal 2 rest
  | '0' :: 'o' :: rest => baseVal 8 rest
  | '0' :: 'O' :: rest => baseVal 8 rest
  | '0' :: rest => baseVal 8 rest
  | ds => baseVal 10 ds

/-- `strconv.ParseInt(s, 0, 64)` with its error ignored: the call sites
use the returned value, which is 0 on a parse failure. -/
def parseInt0 (s : String) : Int :=
  match s.data with
  | '+' :: rest => ((parseMag rest).getD 0 : Nat)
  | '-' :: rest => -((parseMag rest).getD 0 : Nat)
  | ds => ((parseMag ds).getD 0 : Nat)

/-- The Go `byte(i)` cast on an `int64`. -/
def toByte (i : Int) : Nat := (i % 256).toNat

/-- UTF-8 bytes of one rune: Go indexes string literals byte-wise. -/
def charUtf8Bytes (ch : Char) : List Nat :=
  let n := ch.toNat
  if n < 0x80 then [n]
  else if n < 0x800 then [0xc0 + n / 64, 0x80 + n % 64]
  else if n < 0x10000 then
    [0xe0 + n / 4096, 0x80 + n / 64 % 64, 0x80 + n % 64]
  else
    [0xf0 + n / 262144, 0x80 + n / 4096 % 64, 0x80 + n / 64 % 64,
      0x80 + n % 64]

/-- The bytes of a string literal. -/
def litBytes (s : String) : List Nat := (s.data.map charUtf8Bytes).flatten

/-- Go map lookup with the zero-value default:
`value := c.labels[name]`. -/
def lookupLabel (labels : List (String × Nat)) (name : String) : Nat :=
  ((labels.find? (fun l => l.1 = name)).map (fun l => l.2)).getD 0

/-! The per-mnemonic emitters. -/

/-- `mathOp` (add, sub, mul, div, and, or, xor): three register operands
separated by commas. -/
def mathOp (op : Nat) (c : Compiler) : Except CompErr Compiler := do
  let c ← checkNextToken .IDENT c
  let dst ← getRegister c.token.literal
  let c ← checkNextToken .COMMA c
  let c ← checkNextToken .IDENT c
  let reg1 ← getRegister c.token.literal
  let c ← checkNextToken .COMMA c
  let c ← checkNextToken .IDENT c
  let reg2 ← getRegister c.token.literal
  pure (emit c [op, dst, reg1, reg2])

/-- The shared shape of `incOp`, `decOp`, `pushOp`, `popOp`, `isIntOp`,
`isStrOp`, `intToStrOp`, `strToIntOp`, `printIntOp`, `printStrOp`,
`randOp` and `systemOp`: one checked register operand after the
mnemonic. -/
def oneRegOp (op : Nat) (c : Compiler) : Except CompErr Compiler := do
  let c ← checkNextToken .IDENT c
  let reg ← getRegister c.token.literal
  pure (emit c [op, reg])

/-- `callOp` / `jumpOp`: opcode first, then an absolute `INT` target or an
`IDENT` label recording a fixup over two placeholder bytes.  Any other
token kind falls out of the `switch` leaving just the opcode byte. -/
def jumpLikeOp (op : Nat) (c : Compiler) : Except CompErr Compiler :=
  let c := emit c [op]
  let c := nextToken c
  match c.token.typ with
  | .INT =>
    let addr := parseInt0 c.token.literal
    .ok (emit c [toByte (addr % 256), toByte (addr / 256)])
  | .IDENT =>
    let c := { c with fixups := c.fixups ++ [(c.bytecode.length, c.token.literal)] }
    .ok (emit c [0, 0])
  | _ => .ok c

/-- `cmpOp`: CMP_INT / CMP_STR / CMP_REG / label form. -/
def cmpOp (c : Compiler) : Except CompErr Compiler := do
  let c ← checkNextToken .IDENT c
  let reg ← getRegister c.token.literal
  let c ← checkNextToken .COMMA c
  let c := nextToken c
  match c.token.typ with
  | .INT =>
    let i := parseInt0 c.token.literal
    pure (emit c [0x40, reg, toByte (i % 256), toByte (i / 256)])
  | .STR =>
    let bs := litBytes c.token.literal
    pure (emit c ([0x41, reg, bs.length % 256, bs.length / 256 % 256] ++ bs))
  | .IDENT =>
    if isRegister c.token.literal then do
      let k ← getRegister c.token.literal
      pure (emit c [0x42, reg, k])
    else
      let c := emit c [0x40, reg]
      let c := { c with
        fixups := c.fixups ++ [(c.bytecode.length, c.token.literal)] }
      pure (emit c [0, 0])
  | other => .error (.invalidCmp other)

/-- `storeOp`: INT_STORE / STR_STORE / REG_STORE / label form. -/
def storeOp (c : Compiler) : Except CompErr Compiler := do
  let c ← checkNextToken .IDENT c
  let reg ← getRegister c.token.literal
  let c ← checkNextToken .COMMA c
  let c := nextToken c
  match c.token.typ with
  | .INT =>
    let i := parseInt0 c.token.literal
    pure (emit c [0x01, reg, toByte (i % 256), toByte (i / 256)])
  | .STR =>
    let bs := litBytes c.token.literal
    pure (emit c ([0x30, reg, bs.length % 256, bs.length / 256 % 256] ++ bs))
  | .IDENT =>
    if isRegister c.token.literal then do
      let k ← getRegister c.token.literal
      pure (emit c [0x51, reg, k])
    else
      let c := emit c [0x01, reg]
      let c := { c with
        fixups := c.fixups ++ [(c.bytecode.length, c.token.literal)] }
      pure (emit c [0, 0])
  | other => .error (.invalidStore other)

/-- `peekOp` / `pokeOp`: two checked register operands. -/
def twoRegOp (op : Nat) (c : Compiler) : Except CompErr Compiler := do
  let c ← checkNextToken .IDENT c
  let reg ← getRegister c.token.literal
  let c ← checkNextToken .COMMA c
  let c ← checkNextToken .IDENT c
  let addr ← getRegister c.token.literal
  pure (emit c [op, reg, addr])

/-- `concatOp`: first operand checked, the remaining two taken with bare
`nextToken` calls. -/
def concatOp (c : Compiler) : Except CompErr Compiler := do
  let c ← checkNextToken .IDENT c
  let reg ← getRegister c.token.literal
  let c ← checkNextToken .COMMA c
  let c := nextToken c
  let reg1 ← getRegister c.token.literal
  let c ← checkNextToken .COMMA c
  let c := nextToken c
  let reg2 ← getRegister c.token.literal
  pure (emit c [0x32, reg, reg1, reg2])

/-- `memCpyOp`: three operands taken with bare `nextToken` calls. -/
def memCpyOp (c : Compiler) : Except CompErr Compiler := do
  let c := nextToken c
  let reg1 ← getRegister c.token.literal
  let c ← checkNextToken .COMMA c
  let c := nextToken c
  let reg2 ← getRegister c.token.literal
  let c ← checkNextToken .COMMA c
  let c := nextToken c
  let reg3 ← getRegister c.token.literal
  pure (emit c [0x62, reg1, reg2, reg3])

/-- `trapOp`: only the absolute `INT` form; anything else prints "Fail!"
and emits nothing. -/
def trapOp (c : Compiler) : Except CompErr Compiler :=
  let c := nextToken c
  match c.token.typ with
  | .INT =>
    let addr := parseInt0 c.token.literal
    .ok (emit c [0x80, toByte (addr % 256), toByte (addr / 256)])
  | _ => .ok c

/-- The comma loop of `dataOp`, fuelled by the remaining stream length. -/
def dataLoop (fuel : Nat) (c : Compiler) : Option (Except CompErr Compiler) :=
  match fuel with
  | 0 => none
  | f + 1 =>
    if isNextToken c .COMMA then
      let c := nextToken c
      match checkNextToken .INT c with
      | .error e => some (.error e)
      | .ok c =>
        let i := parseInt0 c.token.literal
        dataLoop f (emit c [toByte i])
    else some (.ok c)

/-- `dataOp`: a raw string's bytes, or a comma-separated list of integers
truncated to single bytes. -/
def dataOp (fuel : Nat) (c : Compiler) : Option (Except CompErr Compiler) :=
  let c := nextToken c
  if c.token.typ = .STR then some (.ok (emit c (litBytes c.token.literal)))
  else
    let i := parseInt0 c.token.literal
    dataLoop fuel (emit c [toByte i])

/-- One iteration body of `Compile`'s token loop: dispatch on the current
token.  A label records its address and emits nothing; an unhandled token
prints a diagnostic and is skipped. -/
def emitFor (fuel : Nat) (c : Compiler) : Option (Except CompErr Compiler) :=
  match c.token.typ with
  | .LABEL => some (.ok { c with
      labels := (dropColon c.token.literal, c.bytecode.length) :: c.labels })
  | .ADD => some (mathOp 0x20 c)
  | .SUB => some (mathOp 0x21 c)
  | .MUL => some (mathOp 0x22 c)
  | .DIV => some (mathOp 0x23 c)
  | .AND => some (mathOp 0x26 c)
  | .OR => some (mathOp 0x27 c)
  | .XOR => some (mathOp 0x28 c)
  | .INC => some (oneRegOp 0x24 c)
  | .DEC => some (oneRegOp 0x25 c)
  | .CALL => some (jumpLikeOp 0x72 c)
  | .RET => some (.ok (emit c [0x73]))
  | .JMP => some (jumpLikeOp 0x10 c)
  | .JMP_Z => some (jumpLikeOp 0x11 c)
  | .JMP_NZ => some (jumpLikeOp 0x12 c)
  | .PUSH => some (oneRegOp 0x70 c)
  | .POP => some (oneRegOp 0x71 c)
  | .IS_INT => some (oneRegOp 0x43 c)
  | .IS_STR => some (oneRegOp 0x44 c)
  | .INT_TO_STR => some (oneRegOp 0x03 c)
  | .STR_TO_INT => some (oneRegOp 0x34 c)
  | .CMP => some (cmpOp c)
  | .STORE => some (storeOp c)
  | .PRINT_INT => some (oneRegOp 0x02 c)
  | .PRINT_STR => some (oneRegOp 0x31 c)
  | .PEEK => some (twoRegOp 0x60 c)
  | .POKE => some (twoRegOp 0x61 c)
  | .CONCAT => some (concatOp c)
  | .DATA => dataOp fuel c
  | .DB => dataOp fuel c
  | .EXIT => some (.ok (emit c [0x00]))
  | .MEM_CPY => some (memCpyOp c)
  | .NOP => some (.ok (emit c [0x50]))
  | .RAND => some (oneRegOp 0x04 c)
  | .SYSTEM => some (oneRegOp 0x33 c)
  | .TRAP => some (trapOp c)
  | _ => some (.ok c)

/-- One checked write into the byte buffer: Go `c.bytecode[i] = v` panics
out of range (modelled as `none`). -/
def setByte (bc : List Nat) (i v : Nat) : Option (List Nat) :=
  if i < bc.length then some (bc.set i v) else none

/-- The back-patch pass at the end of `Compile`: for each pending
`(addr, name)` look up the label (0 when missing, with a warning) and
write the little-endian address over the two placeholder bytes. -/
def patchFixups (labels : List (String × Nat)) :
    List (Nat × String) → List Nat → Option (List Nat)
  | [], bc => some bc
  | (addr, name) :: rest, bc => do
    let value := lookupLabel labels name
    let bc ← setByte bc addr (value % 256)
    let bc ← setByte bc (addr + 1) (value / 256 % 256)
    patchFixups labels rest bc

/-- `Compile`'s driving loop: dispatch until EOF, advancing one token per
iteration, then run the fixup pass.  The fuel only bounds the number of
iterations; `none` means it ran out (or a fixup write panicked). -/
def compileLoop (fuel : Nat) (c : Compiler) : Option (Except CompErr Compiler) :=
  match fuel with
  | 0 => none
  | f + 1 =>
    if c.token.typ = .EOF then
      match patchFixups c.labels c.fixups c.bytecode with
      | none => none
      | some bc => some (.ok { c with bytecode := bc })
    else
      match emitFor f c with
      | none => none
      | some (.error e) => some (.error e)
      | some (.ok c') => compileLoop f (nextToken c')

/-- `Compile` on a token stream. -/
def compile (fuel : Nat) (ts : List Token) : Option (Except CompErr Compiler) :=
  compileLoop fuel (CompilerNew ts)

/-! Structural facts about the compiler: every pending fixup's two
placeholder bytes lie inside the buffer, distinct fixups occupy disjoint
byte pairs, and every recorded label address is at most the buffer
length. -/

theorem cbind_eq_ok {α β : Type} {x : Except CompErr α}
    {f : α → Except CompErr β} {b : β} :
    (x >>= f) = .ok b ↔ ∃ a, x = .ok a ∧ f a = .ok b := by
  cases x <;> simp [Bind.bind, Except.bind]

@[simp] theorem cpure_eq {α : Type} (a : α) :
    (pure a : Except CompErr α) = .ok a := rfl

theorem chk_ok {t : TokKind} {c c' : Compiler}
    (h : checkNextToken t c = .ok c') : c' = nextToken c := by
  unfold checkNextToken at h
  split at h
  · cases h; rfl
  · cases h

/-- The compiler invariant maintained by every emitter. -/
def Inv (c : Compiler) : Prop :=
  (∀ p ∈ c.fixups, p.1 + 2 ≤ c.bytecode.length) ∧
  c.fixups.Pairwise (fun p q => p.1 + 2 ≤ q.1) ∧
  (∀ l ∈ c.labels, l.2 ≤ c.bytecode.length)

/-- `Inv` only mentions the buffer and the two tables, so any state with
the same three fields inherits it. -/
theorem Inv_tok {c c' : Compiler} (hb : c'.bytecode = c.bytecode)
    (hf : c'.fixups = c.fixups) (hl : c'.labels = c.labels) (h : Inv c) :
    Inv c' := by
  unfold Inv at *
  rw [hb, hf, hl]
  exact h

theorem Inv_emit {c : Compiler} (bs : List Nat) (h : Inv c) :
    Inv (emit c bs) := by
  obtain ⟨h1, h2, h3⟩ := h
  refine ⟨?_, h2, ?_⟩
  · intro p hp
    have hb := h1 p hp
    simp only [emit, List.length_append]
    omega
  · intro l hl
    have hb := h3 l hl
    simp only [emit, List.length_append]
    omega

theorem Inv_label {c : Compiler} (nm : String) (h : Inv c) :
    Inv { c with labels := (nm, c.bytecode.length) :: c.labels } := by
  obtain ⟨h1, h2, h3⟩ := h
  refine ⟨h1, h2, ?_⟩
  intro l hl
  rcases List.mem_cons.mp hl with rfl | hl
  · exact Nat.le_refl _
  · exact h3 l hl

theorem Inv_addFixup {c : Compiler} (name : String) (h : Inv c) :
    Inv (emit
      { c with fixups := c.fixups ++ [(c.bytecode.length, name)] }
      [0, 0]) := by
  obtain ⟨h1, h2, h3⟩ := h
  refine ⟨?_, ?_, ?_⟩
  · intro p hp
    simp only [emit, List.length_append] at hp ⊢
    rcases List.mem_append.mp hp with hp | hp
    · have hb := h1 p hp
      simp only [List.length_cons, List.length_nil]
      omega
    · simp only [List.mem_singleton] at hp
      subst hp
      simp only [List.length_cons, List.length_nil]
      omega
  · show List.Pairwise _ (c.fixups ++ [(c.bytecode.length, name)])
    rw [List.pairwise_append]
    refine ⟨h2, List.pairwise_singleton _ _, ?_⟩
    intro p hp q hq
    simp only [List.mem_singleton] at hq
    subst hq
    exact h1 p hp
  · intro l hl
    have hb := h3 l hl
    simp only [emit, List.length_append, List.length_cons, List.length_nil]
    omega

theorem mathOp_inv {op : Nat} {c c' : Compiler} (h : mathOp op c = .ok c')
    (hI : Inv c) : Inv c' := by
  unfold mathOp at h
  simp only [cbind_eq_ok, cpure_eq, Except.ok.injEq] at h
  obtain ⟨c₁, h1, dst, _, c₂, h2, c₃, h3, r1, _, c₄, h4, c₅, h5, r2, _,
    hfin⟩ := h
  cases chk_ok h1
  cases chk_ok h2
  cases chk_ok h3
  cases chk_ok h4
  cases chk_ok h5
  subst hfin
  exact Inv_emit _ (Inv_tok rfl rfl rfl hI)

theorem oneRegOp_inv {op : Nat} {c c' : Compiler}
    (h : oneRegOp op c = .ok c') (hI : Inv c) : Inv c' := by
  unfold oneRegOp at h
  simp only [cbind_eq_ok, cpure_eq, Except.ok.injEq] at h
  obtain ⟨c₁, h1, reg, _, hfin⟩ := h
  cases chk_ok h1
  subst hfin
  exact Inv_emit _ (Inv_tok rfl rfl rfl hI)

theorem twoRegOp_inv {op : Nat} {c c' : Compiler}
    (h : twoRegOp op c = .ok c') (hI : Inv c) : Inv c' := by
  unfold twoRegOp at h
  simp only [cbind_eq_ok, cpure_eq, Except.ok.injEq] at h
  obtain ⟨c₁, h1, reg, _, c₂, h2, c₃, h3, addr, _, hfin⟩ := h
  cases chk_ok h1
  cases chk_ok h2
  cases chk_ok h3
  subst hfin
  exact Inv_emit _ (Inv_tok rfl rfl rfl hI)

theorem concatOp_inv {c c' : Compiler} (h : concatOp c = .ok c')
    (hI : Inv c) : Inv c' := by
  unfold concatOp at h
  simp only [cbind_eq_ok, cpure_eq, Except.ok.injEq] at h
  obtain ⟨c₁, h1, reg, _, c₂, h2, r1, _, c₃, h3, r2, _, hfin⟩ := h
  cases chk_ok h1
  cases chk_ok h2
  cases chk_ok h3
  subst hfin
  exact Inv_emit _ (Inv_tok rfl rfl rfl hI)

theorem memCpyOp_inv {c c' : Compiler} (h : memCpyOp c = .ok c')
    (hI : Inv c) : Inv c' := by
  unfold memCpyOp at h
  simp only [cbind_eq_ok, cpure_eq, Except.ok.injEq] at h
  obtain ⟨r1, _, c₁, h1, r2, _, c₂, h2, r3, _, hfin⟩ := h
  cases chk_ok h1
  cases chk_ok h2
  subst hfin
  exact Inv_emit _ (Inv_tok rfl rfl rfl hI)

theorem jumpLikeOp_inv {op : Nat} {c c' : Compiler}
    (h : jumpLikeOp op c = .ok c') (hI : Inv c) : Inv c' := by
  unfold jumpLikeOp at h
  dsimp only at h
  split at h
  · simp only [Except.ok.injEq] at h
    subst h
    exact Inv_emit _ (Inv_tok rfl rfl rfl (Inv_emit _ hI))
  · simp only [Except.ok.injEq] at h
    subst h
    exact Inv_addFixup _ (Inv_tok rfl rfl rfl (Inv_emit _ hI))
  · simp only [Except.ok.injEq] at h
    subst h
    exact Inv_tok rfl rfl rfl (Inv_emit _ hI)

theorem trapOp_inv {c c' : Compiler} (h : trapOp c = .ok c')
    (hI : Inv c) : Inv c' := by
  unfold trapOp at h
  dsimp only at h
  split at h
  · simp only [Except.ok.injEq] at h
    subst h
    exact Inv_emit _ (Inv_tok rfl rfl rfl hI)
  · simp only [Except.ok.injEq] at h
    subst h
    exact Inv_tok rfl rfl rfl hI

theorem cmpOp_inv {c c' : Compiler} (h : cmpOp c = .ok c')
    (hI : Inv c) : Inv c' := by
  unfold cmpOp at h
  simp only [cbind_eq_ok, cpure_eq] at h
  obtain ⟨c₁, h1, reg, _, c₂, h2, hfin⟩ := h
  cases chk_ok h1
  cases chk_ok h2
  have hI₃ : Inv (nextToken (nextToken (nextToken c))) :=
    Inv_tok rfl rfl rfl hI
  split at hfin
  · simp only [cpure_eq, Except.ok.injEq] at hfin
    subst hfin
    exact Inv_emit _ hI₃
  · simp only [cpure_eq, Except.ok.injEq] at hfin
    subst hfin
    exact Inv_emit _ hI₃
  · split at hfin
    · simp only [cbind_eq_ok, cpure_eq, Except.ok.injEq] at hfin
      obtain ⟨k, _, hfin⟩ := hfin
      subst hfin
      exact Inv_emit _ hI₃
    · simp only [cpure_eq, Except.ok.injEq] at hfin
      subst hfin
      exact Inv_addFixup _ (Inv_emit _ hI₃)
  · cases hfin

theorem storeOp_inv {c c' : Compiler} (h : storeOp c = .ok c')
    (hI : Inv c) : Inv c' := by
  unfold storeOp at h
  simp only [cbind_eq_ok, cpure_eq] at h
  obtain ⟨c₁, h1, reg, _, c₂, h2, hfin⟩ := h
  cases chk_ok h1
  cases chk_ok h2
  have hI₃ : Inv (nextToken (nextToken (nextToken c))) :=
    Inv_tok rfl rfl rfl hI
  split at hfin
  · simp only [cpure_eq, Except.ok.injEq] at hfin
    subst hfin
    exact Inv_emit _ hI₃
  · simp only [cpure_eq, Except.ok.injEq] at hfin
    subst hfin
    exact Inv_emit _ hI₃
  · split at hfin
    · simp only [cbind_eq_ok, cpure_eq, Except.ok.injEq] at hfin
      obtain ⟨k, _, hfin⟩ := hfin
      subst hfin
      exact Inv_emit _ hI₃
    · simp only [cpure_eq, Except.ok.injEq] at hfin
      subst hfin
      exact Inv_addFixup _ (Inv_emit _ hI₃)
  · cases hfin

theorem dataLoop_inv :
    ∀ {fuel : Nat} {c r : Compiler}, dataLoop fuel c = some (.ok r) →
      Inv c → Inv r := by
  intro fuel
  induction fuel with
  | zero => intro c r h _; cases h
  | succ f IH =>
    intro c r h hI
    unfold dataLoop at h
    split at h
    · dsimp only at h
      split at h
      · cases h
      · rename_i c₂ hc₂
        cases chk_ok hc₂
        exact IH h (Inv_emit _ (Inv_tok rfl rfl rfl hI))
    · simp only [Option.some.injEq, Except.ok.injEq] at h
      subst h
      exact hI

theorem dataOp_inv {fuel : Nat} {c r : Compiler}
    (h : dataOp fuel c = some (.ok r)) (hI : Inv c) : Inv r := by
  unfold dataOp at h
  dsimp only at h
  split at h
  · simp only [Option.some.injEq, Except.ok.injEq] at h
    subst h
    exact Inv_emit _ (Inv_tok rfl rfl rfl hI)
  · exact dataLoop_inv h (Inv_emit _ (Inv_tok rfl rfl rfl hI))

set_option maxHeartbeats 1600000 in
theorem emitFor_inv {fuel : Nat} {c r : Compiler}
    (h : emitFor fuel c = some (.ok r)) (hI : Inv c) : Inv r := by
  unfold emitFor at h
  split at h <;>
    first
      | (simp only [Option.some.injEq, Except.ok.injEq] at h
         subst h
         exact hI)
      | (simp only [Option.some.injEq, Except.ok.injEq] at h
         subst h
         exact Inv_label _ hI)
      | (simp only [Option.some.injEq, Except.ok.injEq] at h
         subst h
         exact Inv_emit _ hI)
      | (simp only [Option.some.injEq] at h
         exact mathOp_inv h hI)
      | (simp only [Option.some.injEq] at h
         exact oneRegOp_inv h hI)
      | (simp only [Option.some.injEq] at h
         exact twoRegOp_inv h hI)
      | (simp only [Option.some.injEq] at h
         exact jumpLikeOp_inv h hI)
      | (simp only [Option.some.injEq] at h
         exact cmpOp_inv h hI)
      | (simp only [Option.some.injEq] at h
         exact storeOp_inv h hI)
      | (simp only [Option.some.injEq] at h
         exact concatOp_inv h hI)
      | (simp only [Option.some.injEq] at h
         exact memCpyOp_inv h hI)
      | (simp only [Option.some.injEq] at h
         exact trapOp_inv h hI)
      | (exact dataOp_inv h hI)

/-! The fixup pass: every placeholder pair receives the little-endian
label address, and disjointness (from `Inv`) means no later patch ever
overwrites an earlier one. -/

theorem obind_eq_some {α β : Type} {x : Option α} {f : α → Option β}
    {b : β} : (x >>= f) = some b ↔ ∃ a, x = some a ∧ f a = some b := by
  cases x <;> simp [Bind.bind]

theorem setByte_eq_some {bc bc' : List Nat} {i v : Nat} :
    setByte bc i v = some bc' ↔ i < bc.length ∧ bc' = bc.set i v := by
  unfold setByte
  split
  · rename_i hlt
    constructor
    · intro h
      cases h
      exact ⟨hlt, rfl⟩
    · rintro ⟨-, rfl⟩
      rfl
  · rename_i hge
    constructor
    · intro h
      cases h
    · rintro ⟨hlt, -⟩
      exact absurd hlt hge

theorem setByte_some {bc : List Nat} {i : Nat} (v : Nat)
    (h : i < bc.length) : setByte bc i v = some (bc.set i v) := by
  unfold setByte
  rw [if_pos h]

theorem patchFixups_length (labels : List (String × Nat)) :
    ∀ {fx : List (Nat × String)} {bc bc' : List Nat},
      patchFixups labels fx bc = some bc' → bc'.length = bc.length := by
  intro fx
  induction fx with
  | nil =>
    intro bc bc' h
    simp only [patchFixups, Option.some.injEq] at h
    subst h
    rfl
  | cons p rest IH =>
    intro bc bc' h
    obtain ⟨addr, name⟩ := p
    unfold patchFixups at h
    dsimp only at h
    simp only [obind_eq_some] at h
    obtain ⟨bc₁, h1, bc₂, h2, h3⟩ := h
    rw [setByte_eq_some] at h1 h2
    obtain ⟨hlt1, rfl⟩ := h1
    obtain ⟨hlt2, rfl⟩ := h2
    have hfin := IH h3
    simpa using hfin

theorem patchFixups_untouched (labels : List (String × Nat)) :
    ∀ {fx : List (Nat × String)} {bc bc' : List Nat} {i : Nat},
      patchFixups labels fx bc = some bc' → (∀ p ∈ fx, i < p.1) →
      bc'.get? i = bc.get? i := by
  intro fx
  induction fx with
  | nil =>
    intro bc bc' i h _
    simp only [patchFixups, Option.some.injEq] at h
    subst h
    rfl
  | cons p rest IH =>
    intro bc bc' i h hlo
    obtain ⟨addr, name⟩ := p
    unfold patchFixups at h
    dsimp only at h
    simp only [obind_eq_some] at h
    obtain ⟨bc₁, h1, bc₂, h2, h3⟩ := h
    rw [setByte_eq_some] at h1 h2
    obtain ⟨hlt1, rfl⟩ := h1
    obtain ⟨hlt2, rfl⟩ := h2
    have hhead : i < addr := hlo (addr, name) (List.mem_cons_self _ _)
    have htail : ∀ p ∈ rest, i < p.1 :=
      fun p hp => hlo p (List.mem_cons_of_mem _ hp)
    rw [IH h3 htail]
    rw [List.get?_set_ne _ _ (by omega : addr + 1 ≠ i)]
    rw [List.get?_set_ne _ _ (by omega : addr ≠ i)]

theorem patchFixups_spec (labels : List (String × Nat)) :
    ∀ {fx : List (Nat × String)} {bc : List Nat},
      (∀ p ∈ fx, p.1 + 2 ≤ bc.length) →
      fx.Pairwise (fun p q => p.1 + 2 ≤ q.1) →
      ∃ bc', patchFixups labels fx bc = some bc' ∧
        bc'.length = bc.length ∧
        ∀ p ∈ fx,
          bc'.get? p.1 = some (lookupLabel labels p.2 % 256) ∧
          bc'.get? (p.1 + 1) = some (lookupLabel labels p.2 / 256 % 256) := by
  intro fx
  induction fx with
  | nil =>
    intro bc _ _
    exact ⟨bc, rfl, rfl, by simp⟩
  | cons p rest IH =>
    intro bc hbound hpw
    obtain ⟨addr, name⟩ := p
    have hlt1 : addr < bc.length := by
      have := hbound (addr, name) (List.mem_cons_self _ _)
      dsimp only at this
      omega
    have hlt2 : addr + 1 < bc.length := by
      have := hbound (addr, name) (List.mem_cons_self _ _)
      dsimp only at this
      omega
    obtain ⟨hgap, hpwrest⟩ := List.pairwise_cons.mp hpw
    have hrb : ∀ q ∈ rest,
        q.1 + 2 ≤ ((bc.set addr (lookupLabel labels name % 256)).set
          (addr + 1) (lookupLabel labels name / 256 % 256)).length := by
      intro q hq
      have := hbound q (List.mem_cons_of_mem _ hq)
      simpa using this
    obtain ⟨bc', hpatch, hlen, hrest⟩ := IH hrb hpwrest
    refine ⟨bc', ?_, ?_, ?_⟩
    · unfold patchFixups
      dsimp only
      simp only [obind_eq_some]
      refine ⟨_, setByte_some _ hlt1, _, setByte_some _ ?_, hpatch⟩
      simpa using hlt2
    · rw [hlen]
      simp
    · intro q hq
      rcases List.mem_cons.mp hq with rfl | hq
      · dsimp only
        have huadr : addr < addr + 2 := by omega
        have hu0 : bc'.get? addr =
            ((bc.set addr (lookupLabel labels name % 256)).set
              (addr + 1) (lookupLabel labels name / 256 % 256)).get? addr :=
          patchFixups_untouched labels hpatch
            (fun p hp => by have := hgap p hp; omega)
        have hu1 : bc'.get? (addr + 1) =
            ((bc.set addr (lookupLabel labels name % 256)).set
              (addr + 1) (lookupLabel labels name / 256 % 256)).get?
              (addr + 1) :=
          patchFixups_untouched labels hpatch
            (fun p hp => by have := hgap p hp; omega)
        constructor
        · rw [hu0, List.get?_set_ne _ _ (by omega : addr + 1 ≠ addr)]
          exact List.get?_set_eq_of_lt _ hlt1
        · rw [hu1]
          exact List.get?_set_eq_of_lt _ (by simpa using hlt2)
      · exact hrest q hq

theorem lookupLabel_le {ls : List (String × Nat)} {n : Nat}
    (h : ∀ l ∈ ls, l.2 ≤ n) (name : String) : lookupLabel ls name ≤ n := by
  unfold lookupLabel
  rcases hf : ls.find? (fun l => l.1 = name) with - | l
  · rw [hf]
    simp
  · rw [hf]
    simp only [Option.map_some', Option.getD_some]
    exact h l (List.mem_of_find?_eq_some hf)

theorem Inv_CompilerNew (ts : List Token) : Inv (CompilerNew ts) := by
  have hb : Inv (⟨ts, EOFTok, EOFTok, [], [], []⟩ : Compiler) := by
    unfold Inv
    refine ⟨?_, ?_, ?_⟩
    · intro p hp
      simp at hp
    · exact List.Pairwise.nil
    · intro l hl
      simp at hl
  exact Inv_tok rfl rfl rfl hb

theorem compileLoop_spec :
    ∀ {fuel : Nat} {c r : Compiler}, Inv c →
      compileLoop fuel c = some (.ok r) →
      r.fixups.Pairwise (fun p q => p.1 + 2 ≤ q.1) ∧
      (∀ l ∈ r.labels, l.2 ≤ r.bytecode.length) ∧
      ∀ p ∈ r.fixups, p.1 + 1 < r.bytecode.length ∧
        r.bytecode.get? p.1 = some (lookupLabel r.labels p.2 % 256) ∧
        r.bytecode.get? (p.1 + 1) =
          some (lookupLabel r.labels p.2 / 256 % 256) := by
  intro fuel
  induction fuel with
  | zero =>
    intro c r _ h
    cases h
  | succ f IH =>
    intro c r hI h
    unfold compileLoop at h
    split at h
    · obtain ⟨h1, h2, h3⟩ := hI
      obtain ⟨bc', hpatch, hlen, hbytes⟩ := patchFixups_spec c.labels h1 h2
      rw [hpatch] at h
      simp only [Option.some.injEq, Except.ok.injEq] at h
      subst h
      refine ⟨h2, ?_, ?_⟩
      · intro l hl
        have hb := h3 l hl
        dsimp only
        rw [hlen]
        exact hb
      · intro p hp
        dsimp only at hp ⊢
        have hb := h1 p hp
        have hx := hbytes p hp
        exact ⟨by rw [hlen]; omega, hx.1, hx.2⟩
    · split at h
      · cases h
      · simp at h
      · rename_i c' he
        exact @IH (nextToken c') r
          (@Inv_tok c' (nextToken c') rfl rfl rfl (emitFor_inv he hI)) h

/-- The 65533-character data literal of the oversized program. -/
def C6str : String := ⟨List.replicate 65533 'a'⟩

/-- A forward jump over 65533 data bytes: the label lands at address
0x10000, whose high byte does not survive Go's `byte(value / 256)`
cast. -/
def C6bigTs : List Token :=
  [⟨.JMP, "jmp"⟩, ⟨.IDENT, "L"⟩, ⟨.DB, "db"⟩, ⟨.STR, C6str⟩,
   ⟨.LABEL, ":L"⟩]

/-- The bytecode just before the patch pass: `jmp` plus its two
placeholder bytes, then the data. -/
def C6B : List Nat := [16, 0, 0] ++ litBytes C6str

/-- The bytecode after the patch pass. -/
def C6P : List Nat :=
  (C6B.set 1 (C6B.length % 256)).set 2 (C6B.length / 256 % 256)

/-- One unfolding of the compile loop (the fuel is a successor). -/
theorem compileLoop_succ (f : Nat) (c : Compiler) :
    compileLoop (f + 1) c =
      if c.token.typ = .EOF then
        match patchFixups c.labels c.fixups c.bytecode with
        | none => none
        | some bc => some (.ok { c with bytecode := bc })
      else
        match emitFor f c with
        | none => none
        | some (.error e) => some (.error e)
        | some (.ok c') => compileLoop f (nextToken c') := rfl

theorem C6B_length : C6B.length = 65536 := by
  have hdata : C6str.data = List.replicate 65533 'a' := rfl
  have hbytes : litBytes C6str = (List.replicate 65533 [97]).flatten := by
    unfold litBytes
    rw [hdata, List.map_replicate,
      show charUtf8Bytes 'a' = [97] from rfl]
  have hlen : (litBytes C6str).length = 65533 := by
    rw [hbytes, List.length_flatten, List.map_replicate,
      show ([97] : List Nat).length = 1 from rfl,
      List.sum_const_nat, Nat.mul_one]
  unfold C6B
  rw [List.length_append, hlen]
  rfl

theorem lookupLabel_singleton (s : String) (n : Nat) :
    lookupLabel [(s, n)] s = n := by
  unfold lookupLabel
  simp

theorem C6_patch : patchFixups [("L", C6B.length)] [(1, "L")] C6B
    = some C6P := by
  have h1 : setByte C6B 1 (C6B.length % 256)
      = some (C6B.set 1 (C6B.length % 256)) :=
    setByte_some _ (by rw [C6B_length]; omega)
  have h2 : setByte (C6B.set 1 (C6B.length % 256)) (1 + 1)
      (C6B.length / 256 % 256) = some C6P := by
    rw [show (1 + 1 : Nat) = 2 from rfl]
    exact setByte_some _ (by rw [List.length_set, C6B_length]; omega)
  unfold patchFixups
  dsimp only
  rw [lookupLabel_singleton]
  rw [h1, Option.bind_eq_bind', Option.some_bind]
  rw [Option.bind_eq_bind', h2, Option.some_bind]
  rfl

theorem C6_run : compile 10 C6bigTs = some (.ok
    ⟨[], EOFTok, EOFTok, C6P, [("L", C6B.length)], [(1, "L")]⟩) := by
  unfold compile
  rw [show (10 : Nat) = 9 + 1 from rfl, compileLoop_succ]
  rw [if_neg (by decide : ¬ ((CompilerNew C6bigTs).token.typ = .EOF))]
  rw [show emitFor 9 (CompilerNew C6bigTs) = some (.ok
    ⟨[⟨.STR, C6str⟩, ⟨.LABEL, ":L"⟩], ⟨.IDENT, "L"⟩, ⟨.DB, "db"⟩,
     [16, 0, 0], [], [(1, "L")]⟩) from rfl]
  dsimp only
  rw [show nextToken ⟨[⟨.STR, C6str⟩, ⟨.LABEL, ":L"⟩], ⟨.IDENT, "L"⟩,
    ⟨.DB, "db"⟩, [16, 0, 0], [], [(1, "L")]⟩ =
    ⟨[⟨.LABEL, ":L"⟩], ⟨.DB, "db"⟩, ⟨.STR, C6str⟩,
     [16, 0, 0], [], [(1, "L")]⟩ from rfl]
  rw [show (9 : Nat) = 8 + 1 from rfl, compileLoop_succ]
  rw [if_neg (by decide : ¬ (TokKind.DB = .EOF))]
  rw [show emitFor 8 ⟨[⟨.LABEL, ":L"⟩], ⟨.DB, "db"⟩, ⟨.STR, C6str⟩,
    [16, 0, 0], [], [(1, "L")]⟩ = some (.ok
    ⟨[], ⟨.STR, C6str⟩, ⟨.LABEL, ":L"⟩, C6B, [], [(1, "L")]⟩) from rfl]
  dsimp only
  rw [show nextToken ⟨[], ⟨.STR, C6str⟩, ⟨.LABEL, ":L"⟩, C6B, [],
    [(1, "L")]⟩ = ⟨[], ⟨.LABEL, ":L"⟩, EOFTok, C6B, [], [(1, "L")]⟩
    from rfl]
  rw [show (8 : Nat) = 7 + 1 from rfl, compileLoop_succ]
  rw [if_neg (by decide : ¬ (TokKind.LABEL = .EOF))]
  rw [show emitFor 7 ⟨[], ⟨.LABEL, ":L"⟩, EOFTok, C6B, [], [(1, "L")]⟩
    = some (.ok ⟨[], ⟨.LABEL, ":L"⟩, EOFTok, C6B,
      [("L", C6B.length)], [(1, "L")]⟩) from rfl]
  dsimp only
  rw [show nextToken ⟨[], ⟨.LABEL, ":L"⟩, EOFTok, C6B,
    [("L", C6B.length)], [(1, "L")]⟩ = ⟨[], EOFTok, EOFTok, C6B,
    [("L", C6B.length)], [(1, "L")]⟩ from rfl]
  rw [show (7 : Nat) = 6 + 1 from rfl, compileLoop_succ]
  rw [if_pos (by decide : (EOFTok.typ = TokKind.EOF))]
  rw [show (⟨[], EOFTok, EOFTok, C6B, [("L", C6B.length)],
    [(1, "L")]⟩ : Compiler).labels = [("L", C6B.length)] from rfl]
  rw [show (⟨[], EOFTok, EOFTok, C6B, [("L", C6B.length)],
    [(1, "L")]⟩ : Compiler).fixups = [(1, "L")] from rfl]
  rw [show (⟨[], EOFTok, EOFTok, C6B, [("L", C6B.length)],
    [(1, "L")]⟩ : Compiler).bytecode = C6B from rfl]
  rw [C6_patch]

/-- C6 counterexample: compiling `C6bigTs` succeeds and records label `L`
at address 0x10000, but the patched byte at offset+1 (index 2) is 0, not
the claimed `addr div 256 = 256` — `byte(value / 256)` truncates once the
buffer passes 64KiB. -/
theorem C6_counterexample :
    ∃ c : Compiler, compile 10 C6bigTs = some (.ok c) ∧
      lookupLabel c.labels "L" = 0x10000 ∧
      c.bytecode.get? 2 = some 0 ∧
      (some 0 : Option Nat) ≠ some (0x10000 / 256) := by
  refine ⟨_, C6_run, ?_, ?_, by decide⟩
  · show lookupLabel [("L", C6B.length)] "L" = 0x10000
    rw [lookupLabel_singleton, C6B_length]
  · show C6P.get? 2 = some 0
    unfold C6P
    rw [List.get?_set_eq_of_lt _ (by simp [C6B_length])]
    rw [C6B_length]

/-- C6: after `Compile` finishes (and the whole buffer fits in the VM's
loadable 0x10000-byte range), every pending fixup `(offset, name)` has its
two placeholder bytes inside the final bytecode and they hold
`(addr % 256, addr / 256)` where `addr` is the recorded definition address
of `name` (0 when `name` was never defined); the placeholder pairs are
pairwise disjoint, so each is patched exactly once. -/
theorem C6_backpatch {fuel : Nat} {ts : List Token} {c : Compiler}
    (h : compile fuel ts = some (.ok c))
    (hsize : c.bytecode.length < 0x10000) :
    c.fixups.Pairwise (fun p q => p.1 + 2 ≤ q.1) ∧
    ∀ p ∈ c.fixups, p.1 + 1 < c.bytecode.length ∧
      c.bytecode.get? p.1 = some (lookupLabel c.labels p.2 % 256) ∧
      c.bytecode.get? (p.1 + 1) = some (lookupLabel c.labels p.2 / 256) := by
  unfold compile at h
  obtain ⟨hpw, hlab, hbytes⟩ := compileLoop_spec (Inv_CompilerNew ts) h
  refine ⟨hpw, ?_⟩
  intro p hp
  obtain ⟨hlt, hb0, hb1⟩ := hbytes p hp
  refine ⟨hlt, hb0, ?_⟩
  have hv : lookupLabel c.labels p.2 ≤ c.bytecode.length :=
    lookupLabel_le hlab p.2
  have hdiv : lookupLabel c.labels p.2 / 256 < 256 := by omega
  rw [hb1, Nat.mod_eq_of_lt hdiv]

/-- A program that jumps forward to a label defined two tokens later. -/
def C6ts : List Token :=
  [⟨.JMP, "jmp"⟩, ⟨.IDENT, "foo"⟩, ⟨.LABEL, ":foo"⟩, ⟨.EXIT, "exit"⟩]

/-- What `Compile` produces on `C6ts`: `jmp` at 0 with a fixup at offset
1, the label at address 3, and the patched buffer `[0x10, 3, 0, 0]`. -/
def C6result : Compiler :=
  ⟨[], EOFTok, EOFTok, [16, 3, 0, 0], [("foo", 3)], [(1, "foo")]⟩

/-- C6 witness: the back-patch theorem instantiated on `C6ts`. -/
theorem C6_witness :
    compile 10 C6ts = some (.ok C6result) ∧
    C6result.bytecode.length < 0x10000 ∧
    (C6result.fixups.Pairwise (fun p q => p.1 + 2 ≤ q.1) ∧
     ∀ p ∈ C6result.fixups, p.1 + 1 < C6result.bytecode.length ∧
       C6result.bytecode.get? p.1 =
         some (lookupLabel C6result.labels p.2 % 256) ∧
       C6result.bytecode.get? (p.1 + 1) =
         some (lookupLabel C6result.labels p.2 / 256)) :=
  ⟨rfl, by decide, @C6_backpatch 10 C6ts C6result rfl (by decide)⟩

/-! ### The lexer (`lexer` package)

State of `Lexer`: the rune slice of the input, the current and next
character positions, and the current character (`rune(0)` past the
end).  The `for` loops whose body is exactly one `readChar` call
(`skipWhitespace`, `skipComment`, `readUntilWhitespace`, `readNumber`,
`readIdentifier`) share one fuelled combinator, `whileChar`, applied to
the loop's condition; `readStr`'s loop (which also handles escapes) and
`NextToken` (which recurses after a comment) carry their own fuel.
`none` always means the fuel ran out, so a loop that never meets its
exit condition — `readStr` scanning for a closing quote that is not
there — is `none` at every fuel. -/

structure Lexer where
  characters : List Char
  pos : Nat
  nextPos : Nat
  char : Char
  deriving DecidableEq, Repr

namespace Lexer

/-- `rune(0)`, the out-of-input sentinel. -/
def nul : Char := Char.ofNat 0

/-- `readChar`. -/
def readChar (l : Lexer) : Lexer :=
  { l with char := l.characters.getD l.nextPos nul
           pos := l.nextPos
           nextPos := l.nextPos + 1 }

/-- `New`: zero-valued fields, then one priming `readChar`. -/
def New (input : List Char) : Lexer := readChar ⟨input, 0, 0, nul⟩

/-- `peekChar`. -/
def peekChar (l : Lexer) : Char := l.characters.getD l.nextPos nul

/-- `isWhiteSpace`. -/
def isWhiteSpace (c : Char) : Bool :=
  decide (c = ' ' ∨ c = '\n' ∨ c = '\t' ∨ c = '\r')

/-- `isEmpty`. -/
def isEmpty (c : Char) : Bool := decide (c = nul)

/-- `isIdentifier` (a character test in the source). -/
def isIdentifier (c : Char) : Bool :=
  !decide (c = ',') && !isWhiteSpace c && !isEmpty c

/-- `isDigit`. -/
def isDigit (c : Char) : Bool := decide ('0' ≤ c ∧ c ≤ '9')

/-- `isHexDigit` (accepts `x`/`X` so `0x21` lexes as one number). -/
def isHexDigit (c : Char) : Bool :=
  isDigit c || decide ('a' ≤ c ∧ c ≤ 'f') || decide ('A' ≤ c ∧ c ≤ 'F')
    || decide (c = 'x') || decide (c = 'X')

/-- The shared shape of the lexer's character-eating `for` loops: step
`readChar` while the condition holds on the current character. -/
def whileChar (p : Char → Bool) : Nat → Lexer → Option Lexer
  | 0, _ => none
  | f + 1, l => if p l.char then whileChar p f (readChar l) else some l

/-- `skipWhitespace`. -/
def skipWhitespace : Nat → Lexer → Option Lexer := whileChar isWhiteSpace

/-- `skipComment`: to the end of the line (or input). -/
def skipComment : Nat → Lexer → Option Lexer :=
  whileChar (fun c => !decide (c = '\n') && !decide (c = nul))

/-- `readUntilWhitespace`'s loop. -/
def readUntilWhitespace : Nat → Lexer → Option Lexer :=
  whileChar (fun c => !isWhiteSpace c && !decide (c = nul))

/-- `readNumber`'s loop. -/
def readNumber : Nat → Lexer → Option Lexer := whileChar isHexDigit

/-- `readIdentifier`'s loop. -/
def readIdentifier : Nat → Lexer → Option Lexer := whileChar isIdentifier

/-- The escape substitutions in `readStr`'s body. -/
def esc (c : Char) : Char :=
  if c = 'n' then '\n'
  else if c = 't' then '\t'
  else if c = 'r' then '\r'
  else c

/-- `readStr`: `readChar`, break on `"`, translate a backslash escape,
append the (possibly replaced) current character.  The loop has no other
exit, so without a closing quote it never stops: every fuel gives
`none`. -/
def readStr : Nat → Lexer → Option (Lexer × List Char)
  | 0, _ => none
  | f + 1, l =>
    let l1 := readChar l
    if l1.char = '"' then some (l1, [])
    else
      let l2 := if l1.char = '\\' then
          let ln := readChar l1
          { ln with char := esc ln.char }
        else l1
      match readStr f l2 with
      | none => none
      | some (lr, s) => some (lr, l2.char :: s)

/-- `string(l.characters[a:b])`. -/
def slice (cs : List Char) (a b : Nat) : List Char := (cs.drop a).take (b - a)

/-- The `token` package's keyword map. -/
def keywordList : List (String × TokKind) :=
  [("add", .ADD), ("sub", .SUB), ("mul", .MUL), ("div", .DIV),
   ("inc", .INC), ("dec", .DEC), ("and", .AND), ("or", .OR), ("xor", .XOR),
   ("call", .CALL), ("ret", .RET), ("jmp", .JMP), ("jmp_z", .JMP_Z),
   ("jmp_nz", .JMP_NZ), ("push", .PUSH), ("pop", .POP),
   ("is_int", .IS_INT), ("is_str", .IS_STR), ("int_to_str", .INT_TO_STR),
   ("str_to_int", .STR_TO_INT), ("cmp", .CMP), ("store", .STORE),
   ("print_int", .PRINT_INT), ("print_str", .PRINT_STR),
   ("peek", .PEEK), ("poke", .POKE), ("concat", .CONCAT),
   ("data", .DATA), ("db", .DB), ("exit", .EXIT), ("memCpy", .MEM_CPY),
   ("nop", .NOP), ("rand", .RAND), ("system", .SYSTEM), ("trap", .TRAP)]

/-- `token.LookupIdentifier`. -/
def lookupIdentifier (s : String) : TokKind :=
  ((keywordList.find? (fun kv => kv.1 = s)).map (fun kv => kv.2)).getD .IDENT

/-- `NextToken`.  The fuel bounds the comment self-recursion and
`readStr`; the single-`readChar` loops always finish within
`characters.length + 1` steps, which is what they are given. -/
def NextToken : Nat → Lexer → Option (Lexer × Token)
  | 0, _ => none
  | f + 1, l =>
    match skipWhitespace (l.characters.length + 1) l with
    | none => none
    | some lw =>
      if lw.char = '#' ∧ isDigit (peekChar lw) = false then
        match skipComment (lw.characters.length + 1) lw with
        | none => none
        | some lc => NextToken f lc
      else if lw.char = ',' then some (readChar lw, ⟨.COMMA, ","⟩)
      else if lw.char = '"' then
        match readStr (f + 1) lw with
        | none => none
        | some (lr, s) => some (readChar lr, ⟨.STR, ⟨s⟩⟩)
      else if lw.char = ':' then
        match readUntilWhitespace (lw.characters.length + 1) lw with
        | none => none
        | some lr =>
          some (readChar lr, ⟨.LABEL, ⟨slice lw.characters lw.pos lr.pos⟩⟩)
      else if lw.char = nul then some (readChar lw, ⟨.EOF, ""⟩)
      else if isDigit lw.char = true then
        match readNumber (lw.characters.length + 1) lw with
        | none => none
        | some ln =>
          if isWhiteSpace ln.char = true ∨ isEmpty ln.char = true ∨
              ln.char = ',' then
            some (ln, ⟨.INT, ⟨slice lw.characters lw.pos ln.pos⟩⟩)
          else
            match readUntilWhitespace (ln.characters.length + 1) ln with
            | none => none
            | some lu =>
              some (lu, ⟨.ILLEGAL, ⟨slice lw.characters lw.pos ln.pos ++
                slice lw.characters ln.pos lu.pos⟩⟩)
      else
        match readIdentifier (lw.characters.length + 1) lw with
        | none => none
        | some li =>
          some (li, ⟨lookupIdentifier ⟨slice lw.characters lw.pos li.pos⟩,
            ⟨slice lw.characters lw.pos li.pos⟩⟩)

/-- The lexer state after `k` successful `NextToken` calls, each given
fuel `F`. -/
def lexState (F : Nat) : Nat → Lexer → Option Lexer
  | 0, l => some l
  | k + 1, l =>
    match NextToken F l with
    | none => none
    | some (l', _) => lexState F k l'

/-- The token returned by call number `k` (0-based), each call given
fuel `F`. -/
def lexRun (F k : Nat) (l : Lexer) : Option (Lexer × Token) :=
  match lexState F k l with
  | none => none
  | some ls => NextToken F ls

end Lexer

/-- Call number `k` of a lexer freshly primed on `cs`, with the fuel
`cs.length + 2` that suffices for every loop except an unterminated
string literal. -/
def tokenAt (cs : List Char) (k : Nat) : Option Token :=
  (Lexer.lexRun (cs.length + 2) k (Lexer.New cs)).map (fun r => r.2)

namespace Lexer

/-- The lexer's basic shape invariant: `nextPos` trails `pos` by one and
`char` caches the character under `pos` (`nul` past the end).  Every
`readChar` call re-establishes it; only the escape rewriting inside
`readStr` breaks the cache, and that is always overwritten by the next
`readChar` before the loop can return. -/
def Good (l : Lexer) : Prop :=
  l.nextPos = l.pos + 1 ∧ l.char = l.characters.getD l.pos nul

theorem readChar_good (l : Lexer) : Good (readChar l) := ⟨rfl, rfl⟩

theorem New_good (cs : List Char) : Good (New cs) := readChar_good _

theorem whileChar_some {p : Char → Bool} :
    ∀ {fuel : Nat} {l l' : Lexer}, whileChar p fuel l = some l' → Good l →
      Good l' ∧ l'.characters = l.characters ∧ l.pos ≤ l'.pos := by
  intro fuel
  induction fuel with
  | zero => intro l l' h _; cases h
  | succ f IH =>
    intro l l' h hg
    unfold whileChar at h
    split at h
    · obtain ⟨hg', hch, hpos⟩ := IH h (readChar_good l)
      refine ⟨hg', hch, ?_⟩
      have hr : (readChar l).pos = l.pos + 1 := hg.1
      omega
    · cases h
      exact ⟨hg, rfl, Nat.le_refl _⟩

theorem whileChar_strict {p : Char → Bool} {f : Nat} {l l' : Lexer}
    (hp : p l.char = true) (h : whileChar p (f + 1) l = some l')
    (hg : Good l) : l.pos < l'.pos := by
  unfold whileChar at h
  rw [if_pos hp] at h
  obtain ⟨-, -, hpos⟩ := whileChar_some h (readChar_good l)
  have hr : (readChar l).pos = l.pos + 1 := hg.1
  omega

theorem whileChar_exit {p : Char → Bool} :
    ∀ {fuel : Nat} {l l' : Lexer}, whileChar p fuel l = some l' →
      p l'.char = false := by
  intro fuel
  induction fuel with
  | zero => intro l l' h; cases h
  | succ f IH =>
    intro l l' h
    unfold whileChar at h
    split at h
    · exact IH h
    · rename_i hfalse
      cases h
      simpa using hfalse

theorem readStr_some :
    ∀ {fuel : Nat} {l lr : Lexer} {s : List Char},
      readStr fuel l = some (lr, s) → l.nextPos = l.pos + 1 →
      Good lr ∧ lr.characters = l.characters ∧ l.pos < lr.pos := by
  intro fuel
  induction fuel with
  | zero => intro l lr s h _; cases h
  | succ f IH =>
    intro l lr s h hw
    unfold readStr at h
    dsimp only at h
    split at h
    · rename_i hq
      simp only [Option.some.injEq, Prod.mk.injEq] at h
      obtain ⟨rfl, rfl⟩ := h
      refine ⟨readChar_good _, rfl, ?_⟩
      show l.pos < l.nextPos
      omega
    · split at h
      · cases h
      · rename_i lr' s' hrec
        simp only [Option.some.injEq, Prod.mk.injEq] at h
        obtain ⟨rfl, rfl⟩ := h
        split at hrec
        · obtain ⟨hg', hch', hp'⟩ := IH hrec rfl
          refine ⟨hg', hch', ?_⟩
          have h2 : (readChar (readChar l)).pos = l.nextPos + 1 := rfl
          simp only [readChar] at hp' hch' ⊢
          omega
        · obtain ⟨hg', hch', hp'⟩ := IH hrec rfl
          refine ⟨hg', hch', ?_⟩
          simp only [readChar] at hp' hch' ⊢
          omega

theorem isDigit_isHexDigit {c : Char} (h : isDigit c = true) :
    isHexDigit c = true := by
  simp [isHexDigit, h]

/-- A successful `NextToken` call preserves the invariant, never touches
the input, and strictly advances the position. -/
theorem NextToken_step :
    ∀ {fuel : Nat} {l l' : Lexer} {t : Token}, Good l →
      NextToken fuel l = some (l', t) →
      Good l' ∧ l'.characters = l.characters ∧ l.pos < l'.pos := by
  intro fuel
  induction fuel with
  | zero => intro l l' t _ h; cases h
  | succ f IH =>
    intro l l' t hg h
    unfold NextToken at h
    split at h
    · cases h
    · rename_i lw hsw
      obtain ⟨hgw, hcw, hpw⟩ := whileChar_some hsw hg
      split at h
      · rename_i hcond
        split at h
        · cases h
        · rename_i lc hsc
          have hpc : (fun c => !decide (c = '\n') && !decide (c = nul))
              lw.char = true := by
            rw [hcond.1]
            decide
          have hstrict : lw.pos < lc.pos := by
            obtain ⟨flc, hflc⟩ : ∃ flc, lw.characters.length + 1 = flc + 1 :=
              ⟨lw.characters.length, rfl⟩
            rw [hflc] at hsc
            exact whileChar_strict hpc hsc hgw
          obtain ⟨hgc, hcc, -⟩ := whileChar_some hsc hgw
          obtain ⟨hg', hch', hp'⟩ := IH hgc h
          exact ⟨hg', by rw [hch', hcc, hcw], by omega⟩
      · split at h
        · simp only [Option.some.injEq, Prod.mk.injEq] at h
          obtain ⟨rfl, rfl⟩ := h
          refine ⟨readChar_good _, hcw, ?_⟩
          have hr : (readChar lw).pos = lw.pos + 1 := hgw.1
          omega
        · rename_i hncomma
          split at h
          · rename_i hq
            split at h
            · cases h
            · rename_i lr s hrs
              simp only [Option.some.injEq, Prod.mk.injEq] at h
              obtain ⟨rfl, rfl⟩ := h
              obtain ⟨hglr, hclr, hplr⟩ := readStr_some hrs hgw.1
              refine ⟨readChar_good _, by rw [show (readChar lr).characters
                = lr.characters from rfl, hclr, hcw], ?_⟩
              have hr : (readChar lr).pos = lr.pos + 1 := hglr.1
              omega
          · rename_i hnq
            split at h
            · rename_i hcolon
              split at h
              · cases h
              · rename_i lr hru
                simp only [Option.some.injEq, Prod.mk.injEq] at h
                obtain ⟨rfl, rfl⟩ := h
                obtain ⟨hglr, hclr, hplr⟩ := whileChar_some hru hgw
                refine ⟨readChar_good _, by rw [show (readChar lr).characters
                  = lr.characters from rfl, hclr, hcw], ?_⟩
                have hr : (readChar lr).pos = lr.pos + 1 := hglr.1
                omega
            · rename_i hncolon
              split at h
              · simp only [Option.some.injEq, Prod.mk.injEq] at h
                obtain ⟨rfl, rfl⟩ := h
                refine ⟨readChar_good _, hcw, ?_⟩
                have hr : (readChar lw).pos = lw.pos + 1 := hgw.1
                omega
              · rename_i hnnul
                split at h
                · rename_i hdig
                  split at h
                  · cases h
                  · rename_i ln hrn
                    have hstrict : lw.pos < ln.pos := by
                      obtain ⟨fln, hfln⟩ : ∃ fln,
                          lw.characters.length + 1 = fln + 1 :=
                        ⟨lw.characters.length, rfl⟩
                      rw [hfln] at hrn
                      exact whileChar_strict (isDigit_isHexDigit hdig) hrn hgw
                    obtain ⟨hgn, hcn, -⟩ := whileChar_some hrn hgw
                    split at h
                    · simp only [Option.some.injEq, Prod.mk.injEq] at h
                      obtain ⟨rfl, rfl⟩ := h
                      exact ⟨hgn, by rw [hcn, hcw], by omega⟩
                    · split at h
                      · cases h
                      · rename_i lu hru
                        simp only [Option.some.injEq, Prod.mk.injEq] at h
                        obtain ⟨rfl, rfl⟩ := h
                        obtain ⟨hgu, hcu, hpu⟩ := whileChar_some hru hgn
                        exact ⟨hgu, by rw [hcu, hcn, hcw], by omega⟩
                · rename_i hnotdig
                  split at h
                  · cases h
                  · rename_i li hri
                    have hident : isIdentifier lw.char = true := by
                      have hws : isWhiteSpace lw.char = false :=
                        whileChar_exit hsw
                      simp only [isIdentifier, isEmpty, hws,
                        Bool.not_false, Bool.and_true, Bool.true_and,
                        Bool.and_eq_true, decide_eq_false_iff_not,
                        Bool.not_eq_true']
                      exact ⟨by simpa using hncomma, by simpa using hnnul⟩
                    have hstrict : lw.pos < li.pos := by
                      obtain ⟨fli, hfli⟩ : ∃ fli,
                          lw.characters.length + 1 = fli + 1 :=
                        ⟨lw.characters.length, rfl⟩
                      rw [hfli] at hri
                      exact whileChar_strict hident hri hgw
                    obtain ⟨hgi, hci, -⟩ := whileChar_some hri hgw
                    simp only [Option.some.injEq, Prod.mk.injEq] at h
                    obtain ⟨rfl, rfl⟩ := h
                    exact ⟨hgi, by rw [hci, hcw], by omega⟩

/-- Once the position is past the input, `NextToken` returns the EOF
token (and keeps the position past the input). -/
theorem NextToken_atEnd {l : Lexer} (hg : Good l)
    (hend : l.characters.length ≤ l.pos) (f : Nat) :
    NextToken (f + 1) l = some (readChar l, ⟨.EOF, ""⟩) := by
  have hch : l.char = nul := by
    rw [hg.2]
    exact List.getD_eq_default _ _ hend
  have hws : isWhiteSpace l.char = false := by rw [hch]; decide
  have h1 : skipWhitespace (l.characters.length + 1) l = some l := by
    show whileChar isWhiteSpace (l.characters.length + 1) l = some l
    unfold whileChar
    simp [hws]
  unfold NextToken
  rw [h1]
  dsimp only
  simp only [hch]
  simp [eq_false (by decide : ¬ (nul = '#')),
    eq_false (by decide : ¬ (nul = ',')),
    eq_false (by decide : ¬ (nul = '"')),
    eq_false (by decide : ¬ (nul = ':'))]

/-- `readStr` on the input `"` (an opening quote and nothing else) never
returns: the loop can only break on a closing quote and past the end the
character is the sentinel forever. -/
theorem readStr_unterm :
    ∀ (f : Nat) (l : Lexer), l.characters = ['"'] → 1 ≤ l.nextPos →
      readStr f l = none := by
  intro f
  induction f with
  | zero => intro l _ _; rfl
  | succ f IH =>
    intro l hc hn
    have hch : (readChar l).char = nul := by
      show l.characters.getD l.nextPos nul = nul
      rw [hc]
      exact List.getD_eq_default _ _ (by simpa using hn)
    unfold readStr
    dsimp only
    rw [hch]
    rw [if_neg (by decide : ¬ (nul = '"')),
      if_neg (by decide : ¬ (nul = '\\'))]
    rw [IH (readChar l) (by rw [show (readChar l).characters
      = l.characters from rfl, hc]) (by show 1 ≤ l.nextPos + 1; omega)]

/-- `NextToken` diverges on the unterminated string input `"`: every
fuel is exhausted. -/
theorem NextToken_unterm (fuel : Nat) :
    NextToken fuel (New ['"']) = none := by
  cases fuel with
  | zero => rfl
  | succ f =>
    have hrs : readStr (f + 1) (New ['"']) = none :=
      readStr_unterm (f + 1) _ rfl (by decide)
    unfold NextToken
    rw [show skipWhitespace ((New ['"']).characters.length + 1)
      (New ['"']) = some (New ['"']) from rfl]
    dsimp only
    rw [if_neg (by decide), if_neg (by decide), if_pos (by decide : (New ['"']).char = '"')]
    rw [hrs]

theorem lexState_good {F : Nat} :
    ∀ {k : Nat} {l ls : Lexer}, Good l → lexState F k l = some ls →
      Good ls ∧ ls.characters = l.characters ∧ l.pos + k ≤ ls.pos := by
  intro k
  induction k with
  | zero =>
    intro l ls hg h
    cases h
    exact ⟨hg, rfl, by omega⟩
  | succ k IH =>
    intro l ls hg h
    unfold lexState at h
    split at h
    · cases h
    · rename_i l₁ t₁ heq
      obtain ⟨hg₁, hc₁, hp₁⟩ := NextToken_step hg heq
      obtain ⟨hg', hc', hp'⟩ := IH hg₁ h
      exact ⟨hg', by rw [hc', hc₁], by omega⟩

theorem lexState_succ (F k : Nat) (l : Lexer) :
    lexState F (k + 1) l =
      match NextToken F l with
      | none => none
      | some (l', _) => lexState F k l' := rfl

theorem lexState_append {F : Nat} :
    ∀ {a : Nat} {l m : Lexer}, lexState F a l = some m →
      ∀ b, lexState F (a + b) l = lexState F b m := by
  intro a
  induction a with
  | zero =>
    intro l m h b
    cases h
    rw [Nat.zero_add]
  | succ a IH =>
    intro l m h b
    rw [lexState_succ] at h
    rw [Nat.succ_add, lexState_succ]
    rcases heq : NextToken F l with - | ⟨l₁, t₁⟩
    · rw [heq] at h
      cases h
    · rw [heq] at h
      dsimp only at h ⊢
      exact IH h b

theorem lexState_stable {F : Nat} (f0 : Nat) (hF : F = f0 + 1) :
    ∀ {d : Nat} {l : Lexer}, Good l → l.characters.length ≤ l.pos →
      ∃ le, lexState F d l = some le ∧ Good le ∧
        le.characters = l.characters ∧ l.characters.length ≤ le.pos := by
  intro d
  induction d with
  | zero => intro l hg he; exact ⟨l, rfl, hg, rfl, he⟩
  | succ d IH =>
    intro l hg he
    have hstep := NextToken_atEnd hg he f0
    rw [← hF] at hstep
    have he' : (readChar l).characters.length ≤ (readChar l).pos := by
      show l.characters.length ≤ l.nextPos
      have h1 := hg.1
      omega
    obtain ⟨le, hle, hgle, hcle, hple⟩ := IH (readChar_good l) he'
    refine ⟨le, ?_, hgle, by rw [hcle]; rfl, hple⟩
    unfold lexState
    rw [hstep]
    dsimp only
    exact hle

end Lexer

/-- The fuelled rendering of a `NextToken` call that never returns: it
exhausts every fuel. -/
def Lexer.diverges (l : Lexer) : Prop :=
  ∀ fuel : Nat, Lexer.NextToken fuel l = none

/-- No call, at any index, ever produces a token on this input — in
particular none returns EOF. -/
def neverTokens (cs : List Char) : Prop :=
  ∀ k : Nat, tokenAt cs k = none

/-- C7 counterexample: on the input consisting of a single double quote
(an unterminated string literal) the very first `NextToken` call never
returns — in the fuelled model it exhausts every fuel — so no number of
calls ever reaches EOF. -/
theorem C7_counterexample :
    Lexer.diverges (Lexer.New ['"']) ∧ neverTokens ['"'] := by
  constructor
  · intro fuel
    exact Lexer.NextToken_unterm fuel
  · intro k
    unfold tokenAt Lexer.lexRun
    cases k with
    | zero => simp [Lexer.lexState, Lexer.NextToken_unterm]
    | succ k => simp [Lexer.lexState, Lexer.NextToken_unterm]

/-- C7: provided the first `|cs| + 1` lexer calls all finish (which the
unterminated-string input of `C7_counterexample` shows is not automatic),
call number `|cs|` returns EOF and every call after it returns EOF
again. -/
theorem C7_eof (cs : List Char)
    (hsucc : tokenAt cs cs.length ≠ none) :
    tokenAt cs cs.length = some ⟨.EOF, ""⟩ ∧
    ∀ j, cs.length ≤ j → tokenAt cs j = some ⟨.EOF, ""⟩ := by
  obtain ⟨ls, hls⟩ : ∃ ls,
      Lexer.lexState (cs.length + 2) cs.length (Lexer.New cs) = some ls := by
    rcases hls : Lexer.lexState (cs.length + 2) cs.length (Lexer.New cs)
      with - | ls
    · exfalso
      apply hsucc
      unfold tokenAt Lexer.lexRun
      rw [hls]
      rfl
    · exact ⟨ls, rfl⟩
  obtain ⟨hgls, hcls, hpls⟩ := Lexer.lexState_good (Lexer.New_good cs) hls
  have hend : ls.characters.length ≤ ls.pos := by
    have h0 : (Lexer.New cs).pos = 0 := rfl
    have hc : ls.characters.length = cs.length := by rw [hcls]; rfl
    omega
  constructor
  · unfold tokenAt Lexer.lexRun
    rw [hls]
    dsimp only
    have hfin := Lexer.NextToken_atEnd hgls hend (cs.length + 1)
    rw [show cs.length + 1 + 1 = cs.length + 2 from rfl] at hfin
    rw [hfin]
    rfl
  · intro j hj
    obtain ⟨d, rfl⟩ := Nat.exists_eq_add_of_le hj
    unfold tokenAt Lexer.lexRun
    rw [Lexer.lexState_append hls d]
    obtain ⟨le, hle, hgle, hcle, hple⟩ :=
      Lexer.lexState_stable (cs.length + 1) rfl hgls hend
    rw [hle]
    dsimp only
    have hendle : le.characters.length ≤ le.pos := by rw [hcle]; exact hple
    have hfin := Lexer.NextToken_atEnd hgle hendle (cs.length + 1)
    rw [show cs.length + 1 + 1 = cs.length + 2 from rfl] at hfin
    rw [hfin]
    rfl

/-- C7 witness: on the one-character input `a` the second call (index 1
= length) is EOF and all later calls stay EOF. -/
theorem C7_witness :
    (tokenAt ['a'] 1 ≠ none) ∧
    (tokenAt ['a'] 1 = some ⟨.EOF, ""⟩ ∧
     ∀ j, 1 ≤ j → tokenAt ['a'] j = some ⟨.EOF, ""⟩) :=
  ⟨by decide, C7_eof ['a'] (by decide)⟩

end VM
